import Mathlib

/-!
Verification of the depthmap-to-mesh pipeline.

A shallow embedding of `src/depthmap2stl/core.py` (`depthmap_to_3d_mesh`).
The pipeline converts a normalized grayscale height grid into a solid
triangle mesh: an optional resample, a vertical flip, a height mapping,
a triangulated top surface, four side walls, a flat bottom, and a final
uniform z-shift by the base thickness.

Real-valued quantities are modelled with `ℚ` (the Python floats compute
exact values on all inputs the claims mention). Grids are lists of rows;
faces are triples of indices into the combined vertex buffer.
-/

namespace DepthmapMesh

abbrev Face : Type := Nat × Nat × Nat

abbrev Vec3 : Type := ℚ × ℚ × ℚ

abbrev Grid : Type := List (List ℚ)

/-- Sample of a grid at row `i`, column `j` (0 outside bounds). -/
def sample (g : Grid) (i j : Nat) : ℚ := (g.getD i []).getD j 0

/-- Number of rows of the grid (`img_array.shape[0]`). -/
def gridH (g : Grid) : Nat := g.length

/-- Number of columns of the grid (`img_array.shape[1]`). -/
def gridW (g : Grid) : Nat := (g.headD []).length

/-- Model of `np.flipud`: reverse the row order ("Flip the depthmap vertically"). -/
def flipud (g : Grid) : Grid := g.reverse

/-- Model of `np.linspace(a, b, num = n)`: `n` evenly spaced samples,
endpoints included (for `n = 1` numpy returns `[a]`). -/
def linspace (a b : ℚ) (n : Nat) : List ℚ :=
  (List.range n).map fun k =>
    if n ≤ 1 then a else a + (b - a) * (k : ℚ) / ((n : ℚ) - 1)

/-- Top-surface triangles from `core.py`: for every cell `(i, j)` with
`i < H-1`, `j < W-1` and `idx = i*W + j`, the triangles
`[idx, idx_down, idx_right]` and `[idx_right, idx_down, idx_down_right]`. -/
def topFaces (H W : Nat) : List Face :=
  (List.range (H - 1)).flatMap fun i =>
    (List.range (W - 1)).flatMap fun j =>
      let idx := i * W + j
      let idx_right := idx + 1
      let idx_down := idx + W
      let idx_down_right := idx_down + 1
      [(idx, idx_down, idx_right), (idx_right, idx_down, idx_down_right)]

/-- Left/right wall triangles from `core.py` (the loop over
`range(height_px - 1)`); `N = H*W` is `num_vertices`. -/
def sideFacesLR (H W : Nat) : List Face :=
  let N := H * W
  (List.range (H - 1)).flatMap fun i =>
    let idx_topL := i * W
    let idx_bottomL := N + idx_topL
    let idx_top_nextL := idx_topL + W
    let idx_bottom_nextL := idx_bottomL + W
    let idx_topR := i * W + (W - 1)
    let idx_bottomR := N + idx_topR
    let idx_top_nextR := idx_topR + W
    let idx_bottom_nextR := idx_bottomR + W
    [(idx_topL, idx_bottomL, idx_bottom_nextL),
     (idx_topL, idx_bottom_nextL, idx_top_nextL),
     (idx_topR, idx_bottom_nextR, idx_bottomR),
     (idx_topR, idx_top_nextR, idx_bottom_nextR)]

/-- Front/back wall triangles from `core.py` (the loop over
`range(width_px - 1)`). -/
def sideFacesFB (H W : Nat) : List Face :=
  let N := H * W
  (List.range (W - 1)).flatMap fun j =>
    let idx_topF := j
    let idx_bottomF := N + idx_topF
    let idx_top_nextF := idx_topF + 1
    let idx_bottom_nextF := idx_bottomF + 1
    let idx_topB := (H - 1) * W + j
    let idx_bottomB := N + idx_topB
    let idx_top_nextB := idx_topB + 1
    let idx_bottom_nextB := idx_bottomB + 1
    [(idx_topF, idx_bottomF, idx_bottom_nextF),
     (idx_topF, idx_bottom_nextF, idx_top_nextF),
     (idx_topB, idx_bottom_nextB, idx_bottomB),
     (idx_topB, idx_top_nextB, idx_bottom_nextB)]

/-- All wall triangles, in the order the source emits them. -/
def sideFaces (H W : Nat) : List Face := sideFacesLR H W ++ sideFacesFB H W

/-- Bottom-surface triangles from `core.py`: the top pattern with
`idx = num_vertices + i*W + j`. -/
def bottomFaces (H W : Nat) : List Face :=
  let N := H * W
  (List.range (H - 1)).flatMap fun i =>
    (List.range (W - 1)).flatMap fun j =>
      let idx := N + i * W + j
      let idx_right := idx + 1
      let idx_down := idx + W
      let idx_down_right := idx_down + 1
      [(idx, idx_down, idx_right), (idx_right, idx_down, idx_down_right)]

/-- Model of `np.vstack((faces, side_faces, bottom_faces))`. -/
def allFaces (H W : Nat) : List Face :=
  topFaces H W ++ sideFaces H W ++ bottomFaces H W

/-- Top-surface vertices: `column_stack((xx.ravel(), yy.ravel(), zz.ravel()))`,
row-major, with `x = linspace(0, width, W)`, `y = linspace(0, height_mm, H)`,
`height_mm = (H / W) * width`, and `z = -depth * (1 - sample)`. -/
def topVertices (g : Grid) (width depth : ℚ) : List Vec3 :=
  let H := gridH g
  let W := gridW g
  let xs := linspace 0 width W
  let ys := linspace 0 (((H : ℚ) / (W : ℚ)) * width) H
  (List.range H).flatMap fun i =>
    (List.range W).map fun j =>
      (xs.getD j 0, ys.getD i 0, -depth * (1 - sample g i j))

/-- Bottom-surface vertices: same `(x, y)`, `z = -(depth + base_thickness)`. -/
def bottomVertices (g : Grid) (width depth base_thickness : ℚ) : List Vec3 :=
  let H := gridH g
  let W := gridW g
  let xs := linspace 0 width W
  let ys := linspace 0 (((H : ℚ) / (W : ℚ)) * width) H
  (List.range H).flatMap fun i =>
    (List.range W).map fun j =>
      (xs.getD j 0, ys.getD i 0, -(depth + base_thickness))

/-- The assembled, exported mesh built from the (already flipped) grid:
top and bottom vertex buffers stacked, every `z` shifted down by
`base_thickness` (`mesh.vertices[:, 2] -= base_thickness`), and the
concatenated face buffer. -/
def buildMesh (g : Grid) (width depth base_thickness : ℚ) :
    List Vec3 × List Face :=
  let vs := topVertices g width depth ++ bottomVertices g width depth base_thickness
  (vs.map fun v => (v.1, v.2.1, v.2.2 - base_thickness),
   allFaces (gridH g) (gridW g))

/-- Python 3 `round` (used as `int(round(...))`): round half to even. -/
def pyRound (q : ℚ) : ℤ :=
  let f := ⌊q⌋
  let r := q - (f : ℚ)
  if r < 1 / 2 then f
  else if 1 / 2 < r then f + 1
  else if f % 2 = 0 then f else f + 1

/-- The `mesh_resolution` argument: `None`, a Python `int`, a 2-tuple, or
any other value (e.g. a `float`), which the code rejects. -/
inductive MeshRes : Type
  | unspecified : MeshRes
  | int (n : Nat) : MeshRes
  | pair (width_res height_res : Nat) : MeshRes
  | invalid : MeshRes

/-- The one failure the core raises itself: the `ValueError` for a bad
`mesh_resolution` ("mesh_resolution must be an int or a tuple"). -/
inductive MeshError : Type
  | invalidConfiguration : MeshError

instance : DecidableEq MeshError := fun a b => by
  cases a; cases b; exact isTrue rfl

/-- Models the external PIL collaborator `img.resize((wr, hr), BILINEAR)`
at its interface: a grid of shape `(hr, wr)` whose entries blend the four
surrounding source samples bilinearly (half-pixel convention). -/
def resizeBilinear (g : Grid) (wr hr : Nat) : Grid :=
  (List.range hr).map fun (i : Nat) =>
    (List.range wr).map fun (j : Nat) =>
      let H := gridH g
      let W := gridW g
      let u : ℚ := ((j : ℚ) + 1 / 2) * (W : ℚ) / (wr : ℚ) - 1 / 2
      let v : ℚ := ((i : ℚ) + 1 / 2) * (H : ℚ) / (hr : ℚ) - 1 / 2
      let j0 : Nat := (⌊u⌋.toNat).min (W - 1)
      let i0 : Nat := (⌊v⌋.toNat).min (H - 1)
      let j1 : Nat := (j0 + 1).min (W - 1)
      let i1 : Nat := (i0 + 1).min (H - 1)
      let fu : ℚ := if u ≤ (j0 : ℚ) then 0 else if (j1 : ℚ) ≤ u then 1 else u - (j0 : ℚ)
      let fv : ℚ := if v ≤ (i0 : ℚ) then 0 else if (i1 : ℚ) ≤ v then 1 else v - (i0 : ℚ)
      (1 - fv) * ((1 - fu) * sample g i0 j0 + fu * sample g i0 j1)
        + fv * ((1 - fu) * sample g i1 j0 + fu * sample g i1 j1)

/-- The resampling step of `core.py`: `None` leaves the grid unchanged, an
`int` gives `width_res` with `height_res = int(round(width_res * H / W))`,
a tuple is used verbatim, anything else raises the `ValueError`. -/
def resample (g : Grid) (r : MeshRes) : Except MeshError Grid :=
  match r with
  | .unspecified => .ok g
  | .int n =>
      let aspect_ratio : ℚ := (gridH g : ℚ) / (gridW g : ℚ)
      let height_res : Nat := (pyRound ((n : ℚ) * aspect_ratio)).toNat
      .ok (resizeBilinear g n height_res)
  | .pair width_res height_res => .ok (resizeBilinear g width_res height_res)
  | .invalid => .error .invalidConfiguration

/-- The whole pipeline on an already-decoded normalized grid (image
decoding and STL writing are the external collaborators): resample, flip
vertically, build and export the mesh. -/
def depthmap_to_3d_mesh (g : Grid) (width depth base_thickness : ℚ)
    (mesh_resolution : MeshRes) : Except MeshError (List Vec3 × List Face) :=
  (resample g mesh_resolution).map fun g' =>
    buildMesh (flipud g') width depth base_thickness

/-! ### Edge-counting infrastructure for the closed-mesh claim -/

/-- Undirected edge between two vertex indices, as a sorted pair. -/
def uedge (a b : Nat) : Nat × Nat := if a ≤ b then (a, b) else (b, a)

/-- The three undirected edges of a triangle. -/
def faceEdges (f : Face) : List (Nat × Nat) :=
  [uedge f.1 f.2.1, uedge f.2.1 f.2.2, uedge f.2.2 f.1]

/-- Every edge slot of every triangle of the assembled face buffer. -/
def meshEdges (H W : Nat) : List (Nat × Nat) :=
  (allFaces H W).flatMap faceEdges

/-! ### Canonical vertex indices

Vertex `(i, j)` of layer `l` (0 = top, 1 = bottom) has flat index
`l*(H*W) + i*W + j`; every index the face builders emit is of this shape
with `l < 2`, `i < H`, `j < W`. -/

/-- Flat index of grid vertex `(i, j)` on layer `l`. -/
def pk (H W l i j : Nat) : Nat := l * (H * W) + i * W + j

lemma rowmajor_lt {H W i j : Nat} (hi : i < H) (hj : j < W) : i * W + j < H * W := by
  calc i * W + j < i * W + W := by omega
    _ = (i + 1) * W := by ring
    _ ≤ H * W := Nat.mul_le_mul_right W hi

lemma rowmajor_inj {W j j' : Nat} (i i' : Nat) (hj : j < W) (hj' : j' < W)
    (h : i * W + j = i' * W + j') : i = i' ∧ j = j' := by
  have h1 : (i * W + j) / W = i := by
    rw [Nat.mul_comm, Nat.mul_add_div (by omega), Nat.div_eq_of_lt hj]
    omega
  have h2 : (i' * W + j') / W = i' := by
    rw [Nat.mul_comm, Nat.mul_add_div (by omega), Nat.div_eq_of_lt hj']
    omega
  have : i = i' := by rw [← h1, ← h2, h]
  subst this
  exact ⟨rfl, by omega⟩

lemma pk_inj {H W l i j l' i' j' : Nat} (hl : l < 2) (hi : i < H) (hj : j < W)
    (hl' : l' < 2) (hi' : i' < H) (hj' : j' < W) :
    pk H W l i j = pk H W l' i' j' ↔ l = l' ∧ i = i' ∧ j = j' := by
  constructor
  · intro h
    unfold pk at h
    have hr : i * W + j < H * W := rowmajor_lt hi hj
    have hr' : i' * W + j' < H * W := rowmajor_lt hi' hj'
    have hll : l = l' := by
      rcases Nat.lt_or_ge l l' with hlt | hge
      · have : l * (H * W) + (i * W + j) < l' * (H * W) := by
          calc l * (H * W) + (i * W + j) < l * (H * W) + H * W := by omega
            _ = (l + 1) * (H * W) := by ring
            _ ≤ l' * (H * W) := Nat.mul_le_mul_right _ hlt
        omega
      · rcases Nat.lt_or_ge l' l with hlt | hge'
        · have : l' * (H * W) + (i' * W + j') < l * (H * W) := by
            calc l' * (H * W) + (i' * W + j') < l' * (H * W) + H * W := by omega
              _ = (l' + 1) * (H * W) := by ring
              _ ≤ l * (H * W) := Nat.mul_le_mul_right _ hlt
          omega
        · omega
    subst hll
    have := rowmajor_inj i i' hj hj' (by omega)
    exact ⟨rfl, this⟩
  · rintro ⟨rfl, rfl, rfl⟩; rfl

lemma uedge_comm (a b : Nat) : uedge a b = uedge b a := by
  unfold uedge; split <;> split <;> simp_all [Prod.ext_iff] <;> omega

lemma uedge_eq_iff (a b c d : Nat) :
    uedge a b = uedge c d ↔ (a = c ∧ b = d) ∨ (a = d ∧ b = c) := by
  unfold uedge
  split <;> split <;> simp_all [Prod.ext_iff] <;> omega

/-- The workhorse: equality of two undirected edges between canonically
indexed vertices, read off on coordinates. -/
lemma uedge_pk {H W a b c d e f g h i j k m : Nat}
    (h1 : a < 2) (h2 : b < H) (h3 : c < W) (h4 : d < 2) (h5 : e < H) (h6 : f < W)
    (h7 : g < 2) (h8 : h < H) (h9 : i < W) (hA : j < 2) (hB : k < H) (hC : m < W) :
    uedge (pk H W a b c) (pk H W d e f) = uedge (pk H W g h i) (pk H W j k m) ↔
      ((a = g ∧ b = h ∧ c = i) ∧ (d = j ∧ e = k ∧ f = m)) ∨
      ((a = j ∧ b = k ∧ c = m) ∧ (d = g ∧ e = h ∧ f = i)) := by
  rw [uedge_eq_iff, pk_inj h1 h2 h3 h7 h8 h9, pk_inj h4 h5 h6 hA hB hC,
    pk_inj h1 h2 h3 hA hB hC, pk_inj h4 h5 h6 h7 h8 h9]

/-- Variant of `uedge_pk` with the validity bounds bundled, for one-shot
discharge. -/
lemma uedge_pk_valid {H W a b c d e f g h i j k m : Nat}
    (hv : (a < 2 ∧ b < H ∧ c < W) ∧ (d < 2 ∧ e < H ∧ f < W) ∧
          (g < 2 ∧ h < H ∧ i < W) ∧ (j < 2 ∧ k < H ∧ m < W)) :
    uedge (pk H W a b c) (pk H W d e f) = uedge (pk H W g h i) (pk H W j k m) ↔
      ((a = g ∧ b = h ∧ c = i) ∧ (d = j ∧ e = k ∧ f = m)) ∨
      ((a = j ∧ b = k ∧ c = m) ∧ (d = g ∧ e = h ∧ f = i)) := by
  obtain ⟨⟨v1, v2, v3⟩, ⟨v4, v5, v6⟩, ⟨v7, v8, v9⟩, ⟨vA, vB, vC⟩⟩ := hv
  exact uedge_pk v1 v2 v3 v4 v5 v6 v7 v8 v9 vA vB vC

/-- Count of `e` in the edges of one triangle. -/
def fcnt (e : Nat × Nat) (f : Face) : Nat := (faceEdges f).count e

lemma fcnt_eval (e : Nat × Nat) (x y z : Nat) :
    fcnt e (x, y, z) = (if uedge x y = e then 1 else 0)
      + ((if uedge y z = e then 1 else 0) + (if uedge z x = e then 1 else 0)) := by
  simp [fcnt, faceEdges, List.count_cons, beq_iff_eq]
  ring

lemma count_flatMap_range {α : Type} [BEq α] (f : Nat → List α) (e : α) (n : Nat) :
    ((List.range n).flatMap f).count e = ∑ i ∈ Finset.range n, ((f i).count e) := by
  induction n with
  | zero => simp
  | succ n ih =>
      rw [List.range_succ]
      simp [List.count_append, ih, Finset.sum_range_succ]

/-! ### The face groups in canonical-index form -/

lemma topFaces_pk (H W : Nat) : topFaces H W =
    (List.range (H - 1)).flatMap fun i =>
      (List.range (W - 1)).flatMap fun j =>
        [(pk H W 0 i j, pk H W 0 (i+1) j, pk H W 0 i (j+1)),
         (pk H W 0 i (j+1), pk H W 0 (i+1) j, pk H W 0 (i+1) (j+1))] := by
  unfold topFaces pk
  simp [Nat.add_mul, Nat.add_assoc, Nat.add_comm, Nat.add_left_comm]

lemma bottomFaces_pk (H W : Nat) : bottomFaces H W =
    (List.range (H - 1)).flatMap fun i =>
      (List.range (W - 1)).flatMap fun j =>
        [(pk H W 1 i j, pk H W 1 (i+1) j, pk H W 1 i (j+1)),
         (pk H W 1 i (j+1), pk H W 1 (i+1) j, pk H W 1 (i+1) (j+1))] := by
  unfold bottomFaces pk
  simp [Nat.add_mul, Nat.add_assoc, Nat.add_comm, Nat.add_left_comm]

lemma sideFacesLR_pk (H W : Nat) : sideFacesLR H W =
    (List.range (H - 1)).flatMap fun i =>
      [(pk H W 0 i 0, pk H W 1 i 0, pk H W 1 (i+1) 0),
       (pk H W 0 i 0, pk H W 1 (i+1) 0, pk H W 0 (i+1) 0),
       (pk H W 0 i (W-1), pk H W 1 (i+1) (W-1), pk H W 1 i (W-1)),
       (pk H W 0 i (W-1), pk H W 0 (i+1) (W-1), pk H W 1 (i+1) (W-1))] := by
  unfold sideFacesLR pk
  simp [Nat.add_mul, Nat.add_assoc, Nat.add_comm, Nat.add_left_comm]

lemma sideFacesFB_pk (H W : Nat) : sideFacesFB H W =
    (List.range (W - 1)).flatMap fun j =>
      [(pk H W 0 0 j, pk H W 1 0 j, pk H W 1 0 (j+1)),
       (pk H W 0 0 j, pk H W 1 0 (j+1), pk H W 0 0 (j+1)),
       (pk H W 0 (H-1) j, pk H W 1 (H-1) (j+1), pk H W 1 (H-1) j),
       (pk H W 0 (H-1) j, pk H W 0 (H-1) (j+1), pk H W 1 (H-1) (j+1))] := by
  unfold sideFacesFB pk
  simp [Nat.add_mul, Nat.add_assoc, Nat.add_comm, Nat.add_left_comm]

lemma count_grid_faces (H W m n l : Nat) (e : Nat × Nat) :
    (((List.range m).flatMap fun i => (List.range n).flatMap fun j =>
        [(pk H W l i j, pk H W l (i+1) j, pk H W l i (j+1)),
         (pk H W l i (j+1), pk H W l (i+1) j, pk H W l (i+1) (j+1))]).flatMap
            faceEdges).count e
      = ∑ a ∈ Finset.range m, ∑ b ∈ Finset.range n,
          (fcnt e (pk H W l a b, pk H W l (a+1) b, pk H W l a (b+1)) +
           fcnt e (pk H W l a (b+1), pk H W l (a+1) b, pk H W l (a+1) (b+1))) := by
  rw [List.flatMap_assoc, count_flatMap_range]
  refine Finset.sum_congr rfl fun a _ => ?_
  rw [List.flatMap_assoc, count_flatMap_range]
  refine Finset.sum_congr rfl fun b _ => ?_
  simp [fcnt, List.count_append]

lemma count_quad_faces (n : Nat) (F G I J : Nat → Face) (e : Nat × Nat) :
    (((List.range n).flatMap fun i => [F i, G i, I i, J i]).flatMap faceEdges).count e
      = ∑ a ∈ Finset.range n,
          (fcnt e (F a) + (fcnt e (G a) + (fcnt e (I a) + fcnt e (J a)))) := by
  rw [List.flatMap_assoc, count_flatMap_range]
  refine Finset.sum_congr rfl fun a _ => ?_
  simp [fcnt, List.count_append]

/-- The two top-pattern triangles of one grid cell `(a, b)` on layer `l`. -/
def gridCell (H W l : Nat) (e : Nat × Nat) (a b : Nat) : Nat :=
  fcnt e (pk H W l a b, pk H W l (a+1) b, pk H W l a (b+1)) +
  fcnt e (pk H W l a (b+1), pk H W l (a+1) b, pk H W l (a+1) (b+1))

/-- The two left-wall triangles of boundary segment `a`. -/
def lCell (H W : Nat) (e : Nat × Nat) (a : Nat) : Nat :=
  fcnt e (pk H W 0 a 0, pk H W 1 a 0, pk H W 1 (a+1) 0) +
  fcnt e (pk H W 0 a 0, pk H W 1 (a+1) 0, pk H W 0 (a+1) 0)

/-- The two right-wall triangles of boundary segment `a`. -/
def rCell (H W : Nat) (e : Nat × Nat) (a : Nat) : Nat :=
  fcnt e (pk H W 0 a (W-1), pk H W 1 (a+1) (W-1), pk H W 1 a (W-1)) +
  fcnt e (pk H W 0 a (W-1), pk H W 0 (a+1) (W-1), pk H W 1 (a+1) (W-1))

/-- The two front-wall triangles of boundary segment `b`. -/
def fCell (H W : Nat) (e : Nat × Nat) (b : Nat) : Nat :=
  fcnt e (pk H W 0 0 b, pk H W 1 0 b, pk H W 1 0 (b+1)) +
  fcnt e (pk H W 0 0 b, pk H W 1 0 (b+1), pk H W 0 0 (b+1))

/-- The two back-wall triangles of boundary segment `b`. -/
def bCell (H W : Nat) (e : Nat × Nat) (b : Nat) : Nat :=
  fcnt e (pk H W 0 (H-1) b, pk H W 1 (H-1) (b+1), pk H W 1 (H-1) b) +
  fcnt e (pk H W 0 (H-1) b, pk H W 0 (H-1) (b+1), pk H W 1 (H-1) (b+1))

/-- Edge count contributed by the top-surface loop. -/
def cntT (H W : Nat) (e : Nat × Nat) : Nat :=
  ∑ a ∈ Finset.range (H - 1), ∑ b ∈ Finset.range (W - 1), gridCell H W 0 e a b

/-- Edge count contributed by the left/right wall loop. -/
def cntLR (H W : Nat) (e : Nat × Nat) : Nat :=
  ∑ a ∈ Finset.range (H - 1), (lCell H W e a + rCell H W e a)

/-- Edge count contributed by the front/back wall loop. -/
def cntFB (H W : Nat) (e : Nat × Nat) : Nat :=
  ∑ b ∈ Finset.range (W - 1), (fCell H W e b + bCell H W e b)

/-- Edge count contributed by the bottom-surface loop. -/
def cntB (H W : Nat) (e : Nat × Nat) : Nat :=
  ∑ a ∈ Finset.range (H - 1), ∑ b ∈ Finset.range (W - 1), gridCell H W 1 e a b

/-- Count of an edge over the whole buffer, split into the four loops. -/
lemma meshEdges_count (H W : Nat) (e : Nat × Nat) :
    (meshEdges H W).count e = cntT H W e + cntLR H W e + cntFB H W e + cntB H W e := by
  unfold meshEdges allFaces sideFaces
  rw [topFaces_pk, bottomFaces_pk, sideFacesLR_pk, sideFacesFB_pk]
  simp only [List.flatMap_append, List.count_append]
  rw [count_grid_faces, count_grid_faces, count_quad_faces, count_quad_faces]
  unfold cntT cntLR cntFB cntB gridCell lCell rCell fCell bCell
  have fix : ∀ (n : Nat) (f g h i : Nat → Nat),
      (∑ a ∈ Finset.range n, (f a + (g a + (h a + i a))))
        = ∑ a ∈ Finset.range n, ((f a + g a) + (h a + i a)) :=
    fun n f g h i => Finset.sum_congr rfl fun a _ => by omega
  rw [fix, fix]
  omega

/-! ### Indicator arithmetic -/

/-- Indicator of a decidable proposition. -/
def ind (Q : Prop) [Decidable Q] : Nat := if Q then 1 else 0

lemma ite_zero (P : Prop) [Decidable P] (h : ¬ P) : (if P then (1:Nat) else 0) = 0 :=
  if_neg h

lemma ite_ind (P Q : Prop) [Decidable P] [Decidable Q] (h : P ↔ Q) :
    (if P then (1:Nat) else 0) = ind Q := by
  unfold ind
  exact if_congr h rfl rfl

lemma sum1_dyn (n c : Nat) (Q : Prop) [Decidable Q] :
    (∑ a ∈ Finset.range n, if a = c ∧ Q then (1:Nat) else 0)
      = if c < n ∧ Q then 1 else 0 := by
  by_cases hQ : Q
  · by_cases hc : c < n
    · rw [if_pos ⟨hc, hQ⟩]
      have h : ∀ a : Nat, (a = c ∧ Q) = (a = c) := fun a => propext (by tauto)
      simp only [h]
      rw [Finset.sum_ite_eq' (Finset.range n) c fun _ => (1:Nat)]
      simp [Finset.mem_range.mpr hc]
    · rw [if_neg (by tauto), Finset.sum_eq_zero]
      intro a ha
      rw [Finset.mem_range] at ha
      rw [if_neg]
      rintro ⟨rfl, -⟩
      exact hc ha
  · rw [if_neg (by tauto), Finset.sum_eq_zero]
    intro a _
    rw [if_neg (by tauto)]

lemma ind_congr {P Q : Prop} [Decidable P] [Decidable Q] (h : P ↔ Q) : ind P = ind Q := by
  unfold ind
  exact if_congr h rfl rfl

lemma sum1_ind (n c : Nat) (Q : Prop) [Decidable Q] :
    (∑ a ∈ Finset.range n, ind (a = c ∧ Q)) = ind (c < n ∧ Q) := by
  unfold ind
  exact sum1_dyn n c Q

lemma sum1_ind0 (n c : Nat) :
    (∑ a ∈ Finset.range n, ind (a = c)) = ind (c < n) := by
  rw [Finset.sum_congr rfl fun a _ =>
    ind_congr (P := a = c) (Q := a = c ∧ 0 < 1) (by simp)]
  rw [sum1_ind n c (0 < 1)]
  exact ind_congr (by simp)

lemma sum2_ind (m n c d : Nat) (Q : Prop) [Decidable Q] :
    (∑ a ∈ Finset.range m, ∑ b ∈ Finset.range n, ind (a = c ∧ (b = d ∧ Q)))
      = ind (c < m ∧ (d < n ∧ Q)) := by
  have inner : ∀ a ∈ Finset.range m,
      (∑ b ∈ Finset.range n, ind (a = c ∧ (b = d ∧ Q))) = ind (a = c ∧ (d < n ∧ Q)) := by
    intro a _
    rw [Finset.sum_congr rfl fun b _ =>
      ind_congr (P := a = c ∧ (b = d ∧ Q)) (Q := b = d ∧ (a = c ∧ Q)) (by tauto)]
    rw [sum1_ind n d (a = c ∧ Q)]
    exact ind_congr (by tauto)
  rw [Finset.sum_congr rfl inner, sum1_ind]

lemma sum2_ind0 (m n c d : Nat) :
    (∑ a ∈ Finset.range m, ∑ b ∈ Finset.range n, ind (a = c ∧ b = d))
      = ind (c < m ∧ d < n) := by
  rw [Finset.sum_congr rfl fun a _ => Finset.sum_congr rfl fun b _ =>
    ind_congr (P := a = c ∧ b = d) (Q := a = c ∧ (b = d ∧ 0 < 1)) (by simp)]
  rw [sum2_ind m n c d (0 < 1)]
  exact ind_congr (by simp)

/-! ### Pointwise edge counts, per edge family and per face loop

The eleven undirected-edge families of the buffer: top/bottom row edges
(`th`/`bh`), top/bottom column edges (`tv`/`bv`), top/bottom cell diagonals
(`td`/`bd`), vertical boundary edges (`vv`), and the four wall-quad
diagonals (`dl`, `dr`, `df`, `db`). -/

lemma pt_th_g0 (H W i j a b : Nat) (hH : 2 ≤ H) (hW : 2 ≤ W) (hi : i < H) (hj : j < W - 1)
    (ha : a < H - 1) (hb : b < W - 1) :
    gridCell H W 0 (uedge (pk H W 0 i j) (pk H W 0 i (j+1))) a b
      = ind (a = i ∧ b = j) + ind (a = i - 1 ∧ (b = j ∧ 1 ≤ i)) := by
  unfold gridCell
  rw [fcnt_eval, fcnt_eval]
  simp (disch := omega) only [uedge_pk_valid, true_and, and_true]
  rw [ite_zero _ (by omega), ite_zero _ (by omega), ite_ind _ (a = i ∧ b = j) (by omega),
      ite_zero _ (by omega), ite_ind _ (a = i - 1 ∧ (b = j ∧ 1 ≤ i)) (by omega),
      ite_zero _ (by omega)]
  omega

lemma pt_th_g1 (H W i j a b : Nat) (hH : 2 ≤ H) (hW : 2 ≤ W) (hi : i < H) (hj : j < W - 1)
    (ha : a < H - 1) (hb : b < W - 1) :
    gridCell H W 1 (uedge (pk H W 0 i j) (pk H W 0 i (j+1))) a b = 0 := by
  unfold gridCell
  rw [fcnt_eval, fcnt_eval]
  simp (disch := omega) only [uedge_pk_valid, true_and, and_true]
  rw [ite_zero _ (by omega), ite_zero _ (by omega), ite_zero _ (by omega),
      ite_zero _ (by omega), ite_zero _ (by omega), ite_zero _ (by omega)]

lemma pt_th_lr (H W i j a : Nat) (hH : 2 ≤ H) (hW : 2 ≤ W) (hi : i < H) (hj : j < W - 1)
    (ha : a < H - 1) :
    lCell H W (uedge (pk H W 0 i j) (pk H W 0 i (j+1))) a
      + rCell H W (uedge (pk H W 0 i j) (pk H W 0 i (j+1))) a = 0 := by
  unfold lCell rCell
  rw [fcnt_eval, fcnt_eval, fcnt_eval, fcnt_eval]
  simp (disch := omega) only [uedge_pk_valid, true_and, and_true]
  rw [ite_zero _ (by omega), ite_zero _ (by omega), ite_zero _ (by omega),
      ite_zero _ (by omega), ite_zero _ (by omega), ite_zero _ (by omega),
      ite_zero _ (by omega), ite_zero _ (by omega), ite_zero _ (by omega),
      ite_zero _ (by omega), ite_zero _ (by omega), ite_zero _ (by omega)]

lemma pt_th_fb (H W i j b : Nat) (hH : 2 ≤ H) (hW : 2 ≤ W) (hi : i < H) (hj : j < W - 1)
    (hb : b < W - 1) :
    fCell H W (uedge (pk H W 0 i j) (pk H W 0 i (j+1))) b
      + bCell H W (uedge (pk H W 0 i j) (pk H W 0 i (j+1))) b
      = ind (b = j ∧ i = 0) + ind (b = j ∧ i = H - 1) := by
  unfold fCell bCell
  rw [fcnt_eval, fcnt_eval, fcnt_eval, fcnt_eval]
  simp (disch := omega) only [uedge_pk_valid, true_and, and_true]
  rw [ite_zero _ (by omega), ite_zero _ (by omega), ite_zero _ (by omega),
      ite_zero _ (by omega), ite_zero _ (by omega),
      ite_ind _ (b = j ∧ i = 0) (by omega),
      ite_zero _ (by omega), ite_zero _ (by omega), ite_zero _ (by omega),
      ite_ind _ (b = j ∧ i = H - 1) (by omega),
      ite_zero _ (by omega), ite_zero _ (by omega)]
  omega

/-- Every top-surface row edge lies in exactly two triangles. -/
lemma cnt_th (H W i j : Nat) (hH : 2 ≤ H) (hW : 2 ≤ W) (hi : i < H) (hj : j < W - 1) :
    (meshEdges H W).count (uedge (pk H W 0 i j) (pk H W 0 i (j+1))) = 2 := by
  rw [meshEdges_count]
  have hT : cntT H W (uedge (pk H W 0 i j) (pk H W 0 i (j+1)))
      = ind (i < H - 1 ∧ j < W - 1) + ind (i - 1 < H - 1 ∧ (j < W - 1 ∧ 1 ≤ i)) := by
    unfold cntT
    rw [Finset.sum_congr rfl fun a ha => Finset.sum_congr rfl fun b hb =>
      pt_th_g0 H W i j a b hH hW hi hj (Finset.mem_range.mp ha) (Finset.mem_range.mp hb)]
    simp only [Finset.sum_add_distrib]
    rw [sum2_ind0, sum2_ind]
  have hB : cntB H W (uedge (pk H W 0 i j) (pk H W 0 i (j+1))) = 0 := by
    unfold cntB
    rw [Finset.sum_congr rfl fun a ha => Finset.sum_congr rfl fun b hb =>
      pt_th_g1 H W i j a b hH hW hi hj (Finset.mem_range.mp ha) (Finset.mem_range.mp hb)]
    simp
  have hLR : cntLR H W (uedge (pk H W 0 i j) (pk H W 0 i (j+1))) = 0 := by
    unfold cntLR
    rw [Finset.sum_congr rfl fun a ha =>
      pt_th_lr H W i j a hH hW hi hj (Finset.mem_range.mp ha)]
    simp
  have hFB : cntFB H W (uedge (pk H W 0 i j) (pk H W 0 i (j+1)))
      = ind (j < W - 1 ∧ i = 0) + ind (j < W - 1 ∧ i = H - 1) := by
    unfold cntFB
    rw [Finset.sum_congr rfl fun b hb =>
      pt_th_fb H W i j b hH hW hi hj (Finset.mem_range.mp hb)]
    simp only [Finset.sum_add_distrib]
    rw [sum1_ind, sum1_ind]
  rw [hT, hB, hLR, hFB]
  unfold ind
  split_ifs <;> omega

lemma pt_tv_g0 (H W i j a b : Nat) (hH : 2 ≤ H) (hW : 2 ≤ W) (hi : i < H - 1) (hj : j < W)
    (ha : a < H - 1) (hb : b < W - 1) :
    gridCell H W 0 (uedge (pk H W 0 i j) (pk H W 0 (i+1) j)) a b
      = ind (a = i ∧ b = j) + ind (a = i ∧ (b = j - 1 ∧ 1 ≤ j)) := by
  unfold gridCell
  rw [fcnt_eval, fcnt_eval]
  simp (disch := omega) only [uedge_pk_valid, true_and, and_true]
  rw [ite_ind _ (a = i ∧ b = j) (by omega), ite_zero _ (by omega), ite_zero _ (by omega),
      ite_zero _ (by omega), ite_zero _ (by omega),
      ite_ind _ (a = i ∧ (b = j - 1 ∧ 1 ≤ j)) (by omega)]
  omega

lemma pt_tv_g1 (H W i j a b : Nat) (hH : 2 ≤ H) (hW : 2 ≤ W) (hi : i < H - 1) (hj : j < W)
    (ha : a < H - 1) (hb : b < W - 1) :
    gridCell H W 1 (uedge (pk H W 0 i j) (pk H W 0 (i+1) j)) a b = 0 := by
  unfold gridCell
  rw [fcnt_eval, fcnt_eval]
  simp (disch := omega) only [uedge_pk_valid, true_and, and_true]
  rw [ite_zero _ (by omega), ite_zero _ (by omega), ite_zero _ (by omega),
      ite_zero _ (by omega), ite_zero _ (by omega), ite_zero _ (by omega)]

lemma pt_tv_lr (H W i j a : Nat) (hH : 2 ≤ H) (hW : 2 ≤ W) (hi : i < H - 1) (hj : j < W)
    (ha : a < H - 1) :
    lCell H W (uedge (pk H W 0 i j) (pk H W 0 (i+1) j)) a
      + rCell H W (uedge (pk H W 0 i j) (pk H W 0 (i+1) j)) a
      = ind (a = i ∧ j = 0) + ind (a = i ∧ j = W - 1) := by
  unfold lCell rCell
  rw [fcnt_eval, fcnt_eval, fcnt_eval, fcnt_eval]
  simp (disch := omega) only [uedge_pk_valid, true_and, and_true]
  rw [ite_zero _ (by omega), ite_zero _ (by omega), ite_zero _ (by omega),
      ite_zero _ (by omega), ite_zero _ (by omega),
      ite_ind _ (a = i ∧ j = 0) (by omega),
      ite_zero _ (by omega), ite_zero _ (by omega), ite_zero _ (by omega),
      ite_ind _ (a = i ∧ j = W - 1) (by omega),
      ite_zero _ (by omega), ite_zero _ (by omega)]
  omega

lemma pt_tv_fb (H W i j b : Nat) (hH : 2 ≤ H) (hW : 2 ≤ W) (hi : i < H - 1) (hj : j < W)
    (hb : b < W - 1) :
    fCell H W (uedge (pk H W 0 i j) (pk H W 0 (i+1) j)) b
      + bCell H W (uedge (pk H W 0 i j) (pk H W 0 (i+1) j)) b = 0 := by
  unfold fCell bCell
  rw [fcnt_eval, fcnt_eval, fcnt_eval, fcnt_eval]
  simp (disch := omega) only [uedge_pk_valid, true_and, and_true]
  rw [ite_zero _ (by omega), ite_zero _ (by omega), ite_zero _ (by omega),
      ite_zero _ (by omega), ite_zero _ (by omega), ite_zero _ (by omega),
      ite_zero _ (by omega), ite_zero _ (by omega), ite_zero _ (by omega),
      ite_zero _ (by omega), ite_zero _ (by omega), ite_zero _ (by omega)]

/-- Every top-surface column edge lies in exactly two triangles. -/
lemma cnt_tv (H W i j : Nat) (hH : 2 ≤ H) (hW : 2 ≤ W) (hi : i < H - 1) (hj : j < W) :
    (meshEdges H W).count (uedge (pk H W 0 i j) (pk H W 0 (i+1) j)) = 2 := by
  rw [meshEdges_count]
  have hT : cntT H W (uedge (pk H W 0 i j) (pk H W 0 (i+1) j))
      = ind (i < H - 1 ∧ j < W - 1) + ind (i < H - 1 ∧ (j - 1 < W - 1 ∧ 1 ≤ j)) := by
    unfold cntT
    rw [Finset.sum_congr rfl fun a ha => Finset.sum_congr rfl fun b hb =>
      pt_tv_g0 H W i j a b hH hW hi hj (Finset.mem_range.mp ha) (Finset.mem_range.mp hb)]
    simp only [Finset.sum_add_distrib]
    rw [sum2_ind0, sum2_ind]
  have hB : cntB H W (uedge (pk H W 0 i j) (pk H W 0 (i+1) j)) = 0 := by
    unfold cntB
    rw [Finset.sum_congr rfl fun a ha => Finset.sum_congr rfl fun b hb =>
      pt_tv_g1 H W i j a b hH hW hi hj (Finset.mem_range.mp ha) (Finset.mem_range.mp hb)]
    simp
  have hLR : cntLR H W (uedge (pk H W 0 i j) (pk H W 0 (i+1) j))
      = ind (i < H - 1 ∧ j = 0) + ind (i < H - 1 ∧ j = W - 1) := by
    unfold cntLR
    rw [Finset.sum_congr rfl fun a ha =>
      pt_tv_lr H W i j a hH hW hi hj (Finset.mem_range.mp ha)]
    simp only [Finset.sum_add_distrib]
    rw [sum1_ind, sum1_ind]
  have hFB : cntFB H W (uedge (pk H W 0 i j) (pk H W 0 (i+1) j)) = 0 := by
    unfold cntFB
    rw [Finset.sum_congr rfl fun b hb =>
      pt_tv_fb H W i j b hH hW hi hj (Finset.mem_range.mp hb)]
    simp
  rw [hT, hB, hLR, hFB]
  unfold ind
  split_ifs <;> omega

lemma pt_td_g0 (H W i j a b : Nat) (hH : 2 ≤ H) (hW : 2 ≤ W) (hi : i < H - 1) (hj : j < W - 1)
    (ha : a < H - 1) (hb : b < W - 1) :
    gridCell H W 0 (uedge (pk H W 0 i (j+1)) (pk H W 0 (i+1) j)) a b
      = ind (a = i ∧ b = j) + ind (a = i ∧ b = j) := by
  unfold gridCell
  rw [fcnt_eval, fcnt_eval]
  simp (disch := omega) only [uedge_pk_valid, true_and, and_true]
  rw [ite_zero _ (by omega), ite_ind _ (a = i ∧ b = j) (by omega), ite_zero _ (by omega),
      ite_ind _ (a = i ∧ b = j) (by omega), ite_zero _ (by omega), ite_zero _ (by omega)]
  omega

lemma pt_td_g1 (H W i j a b : Nat) (hH : 2 ≤ H) (hW : 2 ≤ W) (hi : i < H - 1) (hj : j < W - 1)
    (ha : a < H - 1) (hb : b < W - 1) :
    gridCell H W 1 (uedge (pk H W 0 i (j+1)) (pk H W 0 (i+1) j)) a b = 0 := by
  unfold gridCell
  rw [fcnt_eval, fcnt_eval]
  simp (disch := omega) only [uedge_pk_valid, true_and, and_true]
  rw [ite_zero _ (by omega), ite_zero _ (by omega), ite_zero _ (by omega),
      ite_zero _ (by omega), ite_zero _ (by omega), ite_zero _ (by omega)]

lemma pt_td_lr (H W i j a : Nat) (hH : 2 ≤ H) (hW : 2 ≤ W) (hi : i < H - 1) (hj : j < W - 1)
    (ha : a < H - 1) :
    lCell H W (uedge (pk H W 0 i (j+1)) (pk H W 0 (i+1) j)) a
      + rCell H W (uedge (pk H W 0 i (j+1)) (pk H W 0 (i+1) j)) a = 0 := by
  unfold lCell rCell
  rw [fcnt_eval, fcnt_eval, fcnt_eval, fcnt_eval]
  simp (disch := omega) only [uedge_pk_valid, true_and, and_true]
  rw [ite_zero _ (by omega), ite_zero _ (by omega), ite_zero _ (by omega),
      ite_zero _ (by omega), ite_zero _ (by omega), ite_zero _ (by omega),
      ite_zero _ (by omega), ite_zero _ (by omega), ite_zero _ (by omega),
      ite_zero _ (by omega), ite_zero _ (by omega), ite_zero _ (by omega)]

lemma pt_td_fb (H W i j b : Nat) (hH : 2 ≤ H) (hW : 2 ≤ W) (hi : i < H - 1) (hj : j < W - 1)
    (hb : b < W - 1) :
    fCell H W (uedge (pk H W 0 i (j+1)) (pk H W 0 (i+1) j)) b
      + bCell H W (uedge (pk H W 0 i (j+1)) (pk H W 0 (i+1) j)) b = 0 := by
  unfold fCell bCell
  rw [fcnt_eval, fcnt_eval, fcnt_eval, fcnt_eval]
  simp (disch := omega) only [uedge_pk_valid, true_and, and_true]
  rw [ite_zero _ (by omega), ite_zero _ (by omega), ite_zero _ (by omega),
      ite_zero _ (by omega), ite_zero _ (by omega), ite_zero _ (by omega),
      ite_zero _ (by omega), ite_zero _ (by omega), ite_zero _ (by omega),
      ite_zero _ (by omega), ite_zero _ (by omega), ite_zero _ (by omega)]

/-- Every top-surface cell diagonal lies in exactly two triangles. -/
lemma cnt_td (H W i j : Nat) (hH : 2 ≤ H) (hW : 2 ≤ W) (hi : i < H - 1) (hj : j < W - 1) :
    (meshEdges H W).count (uedge (pk H W 0 i (j+1)) (pk H W 0 (i+1) j)) = 2 := by
  rw [meshEdges_count]
  have hT : cntT H W (uedge (pk H W 0 i (j+1)) (pk H W 0 (i+1) j))
      = ind (i < H - 1 ∧ j < W - 1) + ind (i < H - 1 ∧ j < W - 1) := by
    unfold cntT
    rw [Finset.sum_congr rfl fun a ha => Finset.sum_congr rfl fun b hb =>
      pt_td_g0 H W i j a b hH hW hi hj (Finset.mem_range.mp ha) (Finset.mem_range.mp hb)]
    simp only [Finset.sum_add_distrib]
    rw [sum2_ind0]
  have hB : cntB H W (uedge (pk H W 0 i (j+1)) (pk H W 0 (i+1) j)) = 0 := by
    unfold cntB
    rw [Finset.sum_congr rfl fun a ha => Finset.sum_congr rfl fun b hb =>
      pt_td_g1 H W i j a b hH hW hi hj (Finset.mem_range.mp ha) (Finset.mem_range.mp hb)]
    simp
  have hLR : cntLR H W (uedge (pk H W 0 i (j+1)) (pk H W 0 (i+1) j)) = 0 := by
    unfold cntLR
    rw [Finset.sum_congr rfl fun a ha =>
      pt_td_lr H W i j a hH hW hi hj (Finset.mem_range.mp ha)]
    simp
  have hFB : cntFB H W (uedge (pk H W 0 i (j+1)) (pk H W 0 (i+1) j)) = 0 := by
    unfold cntFB
    rw [Finset.sum_congr rfl fun b hb =>
      pt_td_fb H W i j b hH hW hi hj (Finset.mem_range.mp hb)]
    simp
  rw [hT, hB, hLR, hFB]
  unfold ind
  split_ifs <;> omega

lemma pt_bh_g1 (H W i j a b : Nat) (hH : 2 ≤ H) (hW : 2 ≤ W) (hi : i < H) (hj : j < W - 1)
    (ha : a < H - 1) (hb : b < W - 1) :
    gridCell H W 1 (uedge (pk H W 1 i j) (pk H W 1 i (j+1))) a b
      = ind (a = i ∧ b = j) + ind (a = i - 1 ∧ (b = j ∧ 1 ≤ i)) := by
  unfold gridCell
  rw [fcnt_eval, fcnt_eval]
  simp (disch := omega) only [uedge_pk_valid, true_and, and_true]
  rw [ite_zero _ (by omega), ite_zero _ (by omega), ite_ind _ (a = i ∧ b = j) (by omega),
      ite_zero _ (by omega), ite_ind _ (a = i - 1 ∧ (b = j ∧ 1 ≤ i)) (by omega),
      ite_zero _ (by omega)]
  omega

lemma pt_bh_g0 (H W i j a b : Nat) (hH : 2 ≤ H) (hW : 2 ≤ W) (hi : i < H) (hj : j < W - 1)
    (ha : a < H - 1) (hb : b < W - 1) :
    gridCell H W 0 (uedge (pk H W 1 i j) (pk H W 1 i (j+1))) a b = 0 := by
  unfold gridCell
  rw [fcnt_eval, fcnt_eval]
  simp (disch := omega) only [uedge_pk_valid, true_and, and_true]
  rw [ite_zero _ (by omega), ite_zero _ (by omega), ite_zero _ (by omega),
      ite_zero _ (by omega), ite_zero _ (by omega), ite_zero _ (by omega)]

lemma pt_bh_lr (H W i j a : Nat) (hH : 2 ≤ H) (hW : 2 ≤ W) (hi : i < H) (hj : j < W - 1)
    (ha : a < H - 1) :
    lCell H W (uedge (pk H W 1 i j) (pk H W 1 i (j+1))) a
      + rCell H W (uedge (pk H W 1 i j) (pk H W 1 i (j+1))) a = 0 := by
  unfold lCell rCell
  rw [fcnt_eval, fcnt_eval, fcnt_eval, fcnt_eval]
  simp (disch := omega) only [uedge_pk_valid, true_and, and_true]
  rw [ite_zero _ (by omega), ite_zero _ (by omega), ite_zero _ (by omega),
      ite_zero _ (by omega), ite_zero _ (by omega), ite_zero _ (by omega),
      ite_zero _ (by omega), ite_zero _ (by omega), ite_zero _ (by omega),
      ite_zero _ (by omega), ite_zero _ (by omega), ite_zero _ (by omega)]

lemma pt_bh_fb (H W i j b : Nat) (hH : 2 ≤ H) (hW : 2 ≤ W) (hi : i < H) (hj : j < W - 1)
    (hb : b < W - 1) :
    fCell H W (uedge (pk H W 1 i j) (pk H W 1 i (j+1))) b
      + bCell H W (uedge (pk H W 1 i j) (pk H W 1 i (j+1))) b
      = ind (b = j ∧ i = 0) + ind (b = j ∧ i = H - 1) := by
  unfold fCell bCell
  rw [fcnt_eval, fcnt_eval, fcnt_eval, fcnt_eval]
  simp (disch := omega) only [uedge_pk_valid, true_and, and_true]
  rw [ite_zero _ (by omega), ite_ind _ (b = j ∧ i = 0) (by omega),
      ite_zero _ (by omega), ite_zero _ (by omega), ite_zero _ (by omega),
      ite_zero _ (by omega), ite_zero _ (by omega),
      ite_ind _ (b = j ∧ i = H - 1) (by omega),
      ite_zero _ (by omega), ite_zero _ (by omega), ite_zero _ (by omega),
      ite_zero _ (by omega)]
  omega

/-- Every bottom-surface row edge lies in exactly two triangles. -/
lemma cnt_bh (H W i j : Nat) (hH : 2 ≤ H) (hW : 2 ≤ W) (hi : i < H) (hj : j < W - 1) :
    (meshEdges H W).count (uedge (pk H W 1 i j) (pk H W 1 i (j+1))) = 2 := by
  rw [meshEdges_count]
  have hB : cntB H W (uedge (pk H W 1 i j) (pk H W 1 i (j+1)))
      = ind (i < H - 1 ∧ j < W - 1) + ind (i - 1 < H - 1 ∧ (j < W - 1 ∧ 1 ≤ i)) := by
    unfold cntB
    rw [Finset.sum_congr rfl fun a ha => Finset.sum_congr rfl fun b hb =>
      pt_bh_g1 H W i j a b hH hW hi hj (Finset.mem_range.mp ha) (Finset.mem_range.mp hb)]
    simp only [Finset.sum_add_distrib]
    rw [sum2_ind0, sum2_ind]
  have hT : cntT H W (uedge (pk H W 1 i j) (pk H W 1 i (j+1))) = 0 := by
    unfold cntT
    rw [Finset.sum_congr rfl fun a ha => Finset.sum_congr rfl fun b hb =>
      pt_bh_g0 H W i j a b hH hW hi hj (Finset.mem_range.mp ha) (Finset.mem_range.mp hb)]
    simp
  have hLR : cntLR H W (uedge (pk H W 1 i j) (pk H W 1 i (j+1))) = 0 := by
    unfold cntLR
    rw [Finset.sum_congr rfl fun a ha =>
      pt_bh_lr H W i j a hH hW hi hj (Finset.mem_range.mp ha)]
    simp
  have hFB : cntFB H W (uedge (pk H W 1 i j) (pk H W 1 i (j+1)))
      = ind (j < W - 1 ∧ i = 0) + ind (j < W - 1 ∧ i = H - 1) := by
    unfold cntFB
    rw [Finset.sum_congr rfl fun b hb =>
      pt_bh_fb H W i j b hH hW hi hj (Finset.mem_range.mp hb)]
    simp only [Finset.sum_add_distrib]
    rw [sum1_ind, sum1_ind]
  rw [hT, hB, hLR, hFB]
  unfold ind
  split_ifs <;> omega

lemma pt_bv_g1 (H W i j a b : Nat) (hH : 2 ≤ H) (hW : 2 ≤ W) (hi : i < H - 1) (hj : j < W)
    (ha : a < H - 1) (hb : b < W - 1) :
    gridCell H W 1 (uedge (pk H W 1 i j) (pk H W 1 (i+1) j)) a b
      = ind (a = i ∧ b = j) + ind (a = i ∧ (b = j - 1 ∧ 1 ≤ j)) := by
  unfold gridCell
  rw [fcnt_eval, fcnt_eval]
  simp (disch := omega) only [uedge_pk_valid, true_and, and_true]
  rw [ite_ind _ (a = i ∧ b = j) (by omega), ite_zero _ (by omega), ite_zero _ (by omega),
      ite_zero _ (by omega), ite_zero _ (by omega),
      ite_ind _ (a = i ∧ (b = j - 1 ∧ 1 ≤ j)) (by omega)]
  omega

lemma pt_bv_g0 (H W i j a b : Nat) (hH : 2 ≤ H) (hW : 2 ≤ W) (hi : i < H - 1) (hj : j < W)
    (ha : a < H - 1) (hb : b < W - 1) :
    gridCell H W 0 (uedge (pk H W 1 i j) (pk H W 1 (i+1) j)) a b = 0 := by
  unfold gridCell
  rw [fcnt_eval, fcnt_eval]
  simp (disch := omega) only [uedge_pk_valid, true_and, and_true]
  rw [ite_zero _ (by omega), ite_zero _ (by omega), ite_zero _ (by omega),
      ite_zero _ (by omega), ite_zero _ (by omega), ite_zero _ (by omega)]

lemma pt_bv_lr (H W i j a : Nat) (hH : 2 ≤ H) (hW : 2 ≤ W) (hi : i < H - 1) (hj : j < W)
    (ha : a < H - 1) :
    lCell H W (uedge (pk H W 1 i j) (pk H W 1 (i+1) j)) a
      + rCell H W (uedge (pk H W 1 i j) (pk H W 1 (i+1) j)) a
      = ind (a = i ∧ j = 0) + ind (a = i ∧ j = W - 1) := by
  unfold lCell rCell
  rw [fcnt_eval, fcnt_eval, fcnt_eval, fcnt_eval]
  simp (disch := omega) only [uedge_pk_valid, true_and, and_true]
  rw [ite_zero _ (by omega), ite_ind _ (a = i ∧ j = 0) (by omega),
      ite_zero _ (by omega), ite_zero _ (by omega), ite_zero _ (by omega),
      ite_zero _ (by omega), ite_zero _ (by omega),
      ite_ind _ (a = i ∧ j = W - 1) (by omega),
      ite_zero _ (by omega), ite_zero _ (by omega), ite_zero _ (by omega),
      ite_zero _ (by omega)]
  omega

lemma pt_bv_fb (H W i j b : Nat) (hH : 2 ≤ H) (hW : 2 ≤ W) (hi : i < H - 1) (hj : j < W)
    (hb : b < W - 1) :
    fCell H W (uedge (pk H W 1 i j) (pk H W 1 (i+1) j)) b
      + bCell H W (uedge (pk H W 1 i j) (pk H W 1 (i+1) j)) b = 0 := by
  unfold fCell bCell
  rw [fcnt_eval, fcnt_eval, fcnt_eval, fcnt_eval]
  simp (disch := omega) only [uedge_pk_valid, true_and, and_true]
  rw [ite_zero _ (by omega), ite_zero _ (by omega), ite_zero _ (by omega),
      ite_zero _ (by omega), ite_zero _ (by omega), ite_zero _ (by omega),
      ite_zero _ (by omega), ite_zero _ (by omega), ite_zero _ (by omega),
      ite_zero _ (by omega), ite_zero _ (by omega), ite_zero _ (by omega)]

/-- Every bottom-surface column edge lies in exactly two triangles. -/
lemma cnt_bv (H W i j : Nat) (hH : 2 ≤ H) (hW : 2 ≤ W) (hi : i < H - 1) (hj : j < W) :
    (meshEdges H W).count (uedge (pk H W 1 i j) (pk H W 1 (i+1) j)) = 2 := by
  rw [meshEdges_count]
  have hB : cntB H W (uedge (pk H W 1 i j) (pk H W 1 (i+1) j))
      = ind (i < H - 1 ∧ j < W - 1) + ind (i < H - 1 ∧ (j - 1 < W - 1 ∧ 1 ≤ j)) := by
    unfold cntB
    rw [Finset.sum_congr rfl fun a ha => Finset.sum_congr rfl fun b hb =>
      pt_bv_g1 H W i j a b hH hW hi hj (Finset.mem_range.mp ha) (Finset.mem_range.mp hb)]
    simp only [Finset.sum_add_distrib]
    rw [sum2_ind0, sum2_ind]
  have hT : cntT H W (uedge (pk H W 1 i j) (pk H W 1 (i+1) j)) = 0 := by
    unfold cntT
    rw [Finset.sum_congr rfl fun a ha => Finset.sum_congr rfl fun b hb =>
      pt_bv_g0 H W i j a b hH hW hi hj (Finset.mem_range.mp ha) (Finset.mem_range.mp hb)]
    simp
  have hLR : cntLR H W (uedge (pk H W 1 i j) (pk H W 1 (i+1) j))
      = ind (i < H - 1 ∧ j = 0) + ind (i < H - 1 ∧ j = W - 1) := by
    unfold cntLR
    rw [Finset.sum_congr rfl fun a ha =>
      pt_bv_lr H W i j a hH hW hi hj (Finset.mem_range.mp ha)]
    simp only [Finset.sum_add_distrib]
    rw [sum1_ind, sum1_ind]
  have hFB : cntFB H W (uedge (pk H W 1 i j) (pk H W 1 (i+1) j)) = 0 := by
    unfold cntFB
    rw [Finset.sum_congr rfl fun b hb =>
      pt_bv_fb H W i j b hH hW hi hj (Finset.mem_range.mp hb)]
    simp
  rw [hT, hB, hLR, hFB]
  unfold ind
  split_ifs <;> omega

lemma pt_bd_g1 (H W i j a b : Nat) (hH : 2 ≤ H) (hW : 2 ≤ W) (hi : i < H - 1) (hj : j < W - 1)
    (ha : a < H - 1) (hb : b < W - 1) :
    gridCell H W 1 (uedge (pk H W 1 i (j+1)) (pk H W 1 (i+1) j)) a b
      = ind (a = i ∧ b = j) + ind (a = i ∧ b = j) := by
  unfold gridCell
  rw [fcnt_eval, fcnt_eval]
  simp (disch := omega) only [uedge_pk_valid, true_and, and_true]
  rw [ite_zero _ (by omega), ite_ind _ (a = i ∧ b = j) (by omega), ite_zero _ (by omega),
      ite_ind _ (a = i ∧ b = j) (by omega), ite_zero _ (by omega), ite_zero _ (by omega)]
  omega

lemma pt_bd_g0 (H W i j a b : Nat) (hH : 2 ≤ H) (hW : 2 ≤ W) (hi : i < H - 1) (hj : j < W - 1)
    (ha : a < H - 1) (hb : b < W - 1) :
    gridCell H W 0 (uedge (pk H W 1 i (j+1)) (pk H W 1 (i+1) j)) a b = 0 := by
  unfold gridCell
  rw [fcnt_eval, fcnt_eval]
  simp (disch := omega) only [uedge_pk_valid, true_and, and_true]
  rw [ite_zero _ (by omega), ite_zero _ (by omega), ite_zero _ (by omega),
      ite_zero _ (by omega), ite_zero _ (by omega), ite_zero _ (by omega)]

lemma pt_bd_lr (H W i j a : Nat) (hH : 2 ≤ H) (hW : 2 ≤ W) (hi : i < H - 1) (hj : j < W - 1)
    (ha : a < H - 1) :
    lCell H W (uedge (pk H W 1 i (j+1)) (pk H W 1 (i+1) j)) a
      + rCell H W (uedge (pk H W 1 i (j+1)) (pk H W 1 (i+1) j)) a = 0 := by
  unfold lCell rCell
  rw [fcnt_eval, fcnt_eval, fcnt_eval, fcnt_eval]
  simp (disch := omega) only [uedge_pk_valid, true_and, and_true]
  rw [ite_zero _ (by omega), ite_zero _ (by omega), ite_zero _ (by omega),
      ite_zero _ (by omega), ite_zero _ (by omega), ite_zero _ (by omega),
      ite_zero _ (by omega), ite_zero _ (by omega), ite_zero _ (by omega),
      ite_zero _ (by omega), ite_zero _ (by omega), ite_zero _ (by omega)]

lemma pt_bd_fb (H W i j b : Nat) (hH : 2 ≤ H) (hW : 2 ≤ W) (hi : i < H - 1) (hj : j < W - 1)
    (hb : b < W - 1) :
    fCell H W (uedge (pk H W 1 i (j+1)) (pk H W 1 (i+1) j)) b
      + bCell H W (uedge (pk H W 1 i (j+1)) (pk H W 1 (i+1) j)) b = 0 := by
  unfold fCell bCell
  rw [fcnt_eval, fcnt_eval, fcnt_eval, fcnt_eval]
  simp (disch := omega) only [uedge_pk_valid, true_and, and_true]
  rw [ite_zero _ (by omega), ite_zero _ (by omega), ite_zero _ (by omega),
      ite_zero _ (by omega), ite_zero _ (by omega), ite_zero _ (by omega),
      ite_zero _ (by omega), ite_zero _ (by omega), ite_zero _ (by omega),
      ite_zero _ (by omega), ite_zero _ (by omega), ite_zero _ (by omega)]

/-- Every bottom-surface cell diagonal lies in exactly two triangles. -/
lemma cnt_bd (H W i j : Nat) (hH : 2 ≤ H) (hW : 2 ≤ W) (hi : i < H - 1) (hj : j < W - 1) :
    (meshEdges H W).count (uedge (pk H W 1 i (j+1)) (pk H W 1 (i+1) j)) = 2 := by
  rw [meshEdges_count]
  have hB : cntB H W (uedge (pk H W 1 i (j+1)) (pk H W 1 (i+1) j))
      = ind (i < H - 1 ∧ j < W - 1) + ind (i < H - 1 ∧ j < W - 1) := by
    unfold cntB
    rw [Finset.sum_congr rfl fun a ha => Finset.sum_congr rfl fun b hb =>
      pt_bd_g1 H W i j a b hH hW hi hj (Finset.mem_range.mp ha) (Finset.mem_range.mp hb)]
    simp only [Finset.sum_add_distrib]
    rw [sum2_ind0]
  have hT : cntT H W (uedge (pk H W 1 i (j+1)) (pk H W 1 (i+1) j)) = 0 := by
    unfold cntT
    rw [Finset.sum_congr rfl fun a ha => Finset.sum_congr rfl fun b hb =>
      pt_bd_g0 H W i j a b hH hW hi hj (Finset.mem_range.mp ha) (Finset.mem_range.mp hb)]
    simp
  have hLR : cntLR H W (uedge (pk H W 1 i (j+1)) (pk H W 1 (i+1) j)) = 0 := by
    unfold cntLR
    rw [Finset.sum_congr rfl fun a ha =>
      pt_bd_lr H W i j a hH hW hi hj (Finset.mem_range.mp ha)]
    simp
  have hFB : cntFB H W (uedge (pk H W 1 i (j+1)) (pk H W 1 (i+1) j)) = 0 := by
    unfold cntFB
    rw [Finset.sum_congr rfl fun b hb =>
      pt_bd_fb H W i j b hH hW hi hj (Finset.mem_range.mp hb)]
    simp
  rw [hT, hB, hLR, hFB]
  unfold ind
  split_ifs <;> omega

lemma pt_vv_g0 (H W i j a b : Nat) (hH : 2 ≤ H) (hW : 2 ≤ W) (hi : i < H) (hj : j < W)
    (ha : a < H - 1) (hb : b < W - 1) :
    gridCell H W 0 (uedge (pk H W 0 i j) (pk H W 1 i j)) a b = 0 := by
  unfold gridCell
  rw [fcnt_eval, fcnt_eval]
  simp (disch := omega) only [uedge_pk_valid, true_and, and_true]
  rw [ite_zero _ (by omega), ite_zero _ (by omega), ite_zero _ (by omega),
      ite_zero _ (by omega), ite_zero _ (by omega), ite_zero _ (by omega)]

lemma pt_vv_g1 (H W i j a b : Nat) (hH : 2 ≤ H) (hW : 2 ≤ W) (hi : i < H) (hj : j < W)
    (ha : a < H - 1) (hb : b < W - 1) :
    gridCell H W 1 (uedge (pk H W 0 i j) (pk H W 1 i j)) a b = 0 := by
  unfold gridCell
  rw [fcnt_eval, fcnt_eval]
  simp (disch := omega) only [uedge_pk_valid, true_and, and_true]
  rw [ite_zero _ (by omega), ite_zero _ (by omega), ite_zero _ (by omega),
      ite_zero _ (by omega), ite_zero _ (by omega), ite_zero _ (by omega)]

lemma pt_vv_lr (H W i j a : Nat) (hH : 2 ≤ H) (hW : 2 ≤ W) (hi : i < H) (hj : j < W)
    (ha : a < H - 1) :
    lCell H W (uedge (pk H W 0 i j) (pk H W 1 i j)) a
      + rCell H W (uedge (pk H W 0 i j) (pk H W 1 i j)) a
      = (ind (a = i ∧ j = 0) + ind (a = i - 1 ∧ (j = 0 ∧ 1 ≤ i)))
        + (ind (a = i ∧ j = W - 1) + ind (a = i - 1 ∧ (j = W - 1 ∧ 1 ≤ i))) := by
  unfold lCell rCell
  rw [fcnt_eval, fcnt_eval, fcnt_eval, fcnt_eval]
  simp (disch := omega) only [uedge_pk_valid, true_and, and_true]
  rw [ite_ind _ (a = i ∧ j = 0) (by omega),
      ite_zero _ (by omega), ite_zero _ (by omega), ite_zero _ (by omega),
      ite_ind _ (a = i - 1 ∧ (j = 0 ∧ 1 ≤ i)) (by omega),
      ite_zero _ (by omega), ite_zero _ (by omega), ite_zero _ (by omega),
      ite_ind _ (a = i ∧ j = W - 1) (by omega),
      ite_zero _ (by omega),
      ite_ind _ (a = i - 1 ∧ (j = W - 1 ∧ 1 ≤ i)) (by omega),
      ite_zero _ (by omega)]
  omega

lemma pt_vv_fb (H W i j b : Nat) (hH : 2 ≤ H) (hW : 2 ≤ W) (hi : i < H) (hj : j < W)
    (hb : b < W - 1) :
    fCell H W (uedge (pk H W 0 i j) (pk H W 1 i j)) b
      + bCell H W (uedge (pk H W 0 i j) (pk H W 1 i j)) b
      = (ind (b = j ∧ i = 0) + ind (b = j - 1 ∧ (i = 0 ∧ 1 ≤ j)))
        + (ind (b = j ∧ i = H - 1) + ind (b = j - 1 ∧ (i = H - 1 ∧ 1 ≤ j))) := by
  unfold fCell bCell
  rw [fcnt_eval, fcnt_eval, fcnt_eval, fcnt_eval]
  simp (disch := omega) only [uedge_pk_valid, true_and, and_true]
  rw [ite_ind _ (b = j ∧ i = 0) (by omega),
      ite_zero _ (by omega), ite_zero _ (by omega), ite_zero _ (by omega),
      ite_ind _ (b = j - 1 ∧ (i = 0 ∧ 1 ≤ j)) (by omega),
      ite_zero _ (by omega), ite_zero _ (by omega), ite_zero _ (by omega),
      ite_ind _ (b = j ∧ i = H - 1) (by omega),
      ite_zero _ (by omega),
      ite_ind _ (b = j - 1 ∧ (i = H - 1 ∧ 1 ≤ j)) (by omega),
      ite_zero _ (by omega)]
  omega

/-- Every vertical boundary edge (top vertex to the bottom vertex under it)
lies in exactly two triangles. -/
lemma cnt_vv (H W i j : Nat) (hH : 2 ≤ H) (hW : 2 ≤ W) (hi : i < H) (hj : j < W)
    (hbd : i = 0 ∨ i = H - 1 ∨ j = 0 ∨ j = W - 1) :
    (meshEdges H W).count (uedge (pk H W 0 i j) (pk H W 1 i j)) = 2 := by
  rw [meshEdges_count]
  have hT : cntT H W (uedge (pk H W 0 i j) (pk H W 1 i j)) = 0 := by
    unfold cntT
    rw [Finset.sum_congr rfl fun a ha => Finset.sum_congr rfl fun b hb =>
      pt_vv_g0 H W i j a b hH hW hi hj (Finset.mem_range.mp ha) (Finset.mem_range.mp hb)]
    simp
  have hB : cntB H W (uedge (pk H W 0 i j) (pk H W 1 i j)) = 0 := by
    unfold cntB
    rw [Finset.sum_congr rfl fun a ha => Finset.sum_congr rfl fun b hb =>
      pt_vv_g1 H W i j a b hH hW hi hj (Finset.mem_range.mp ha) (Finset.mem_range.mp hb)]
    simp
  have hLR : cntLR H W (uedge (pk H W 0 i j) (pk H W 1 i j))
      = (ind (i < H - 1 ∧ j = 0) + ind (i - 1 < H - 1 ∧ (j = 0 ∧ 1 ≤ i)))
        + (ind (i < H - 1 ∧ j = W - 1) + ind (i - 1 < H - 1 ∧ (j = W - 1 ∧ 1 ≤ i))) := by
    unfold cntLR
    rw [Finset.sum_congr rfl fun a ha =>
      pt_vv_lr H W i j a hH hW hi hj (Finset.mem_range.mp ha)]
    simp only [Finset.sum_add_distrib]
    rw [sum1_ind, sum1_ind, sum1_ind, sum1_ind]
  have hFB : cntFB H W (uedge (pk H W 0 i j) (pk H W 1 i j))
      = (ind (j < W - 1 ∧ i = 0) + ind (j - 1 < W - 1 ∧ (i = 0 ∧ 1 ≤ j)))
        + (ind (j < W - 1 ∧ i = H - 1) + ind (j - 1 < W - 1 ∧ (i = H - 1 ∧ 1 ≤ j))) := by
    unfold cntFB
    rw [Finset.sum_congr rfl fun b hb =>
      pt_vv_fb H W i j b hH hW hi hj (Finset.mem_range.mp hb)]
    simp only [Finset.sum_add_distrib]
    rw [sum1_ind, sum1_ind, sum1_ind, sum1_ind]
  rw [hT, hB, hLR, hFB]
  unfold ind
  split_ifs <;> omega

lemma pt_dl_g0 (H W i a b : Nat) (hH : 2 ≤ H) (hW : 2 ≤ W) (hi : i < H - 1)
    (ha : a < H - 1) (hb : b < W - 1) :
    gridCell H W 0 (uedge (pk H W 0 i 0) (pk H W 1 (i+1) 0)) a b = 0 := by
  unfold gridCell
  rw [fcnt_eval, fcnt_eval]
  simp (disch := omega) only [uedge_pk_valid, true_and, and_true]
  rw [ite_zero _ (by omega), ite_zero _ (by omega), ite_zero _ (by omega),
      ite_zero _ (by omega), ite_zero _ (by omega), ite_zero _ (by omega)]

lemma pt_dl_g1 (H W i a b : Nat) (hH : 2 ≤ H) (hW : 2 ≤ W) (hi : i < H - 1)
    (ha : a < H - 1) (hb : b < W - 1) :
    gridCell H W 1 (uedge (pk H W 0 i 0) (pk H W 1 (i+1) 0)) a b = 0 := by
  unfold gridCell
  rw [fcnt_eval, fcnt_eval]
  simp (disch := omega) only [uedge_pk_valid, true_and, and_true]
  rw [ite_zero _ (by omega), ite_zero _ (by omega), ite_zero _ (by omega),
      ite_zero _ (by omega), ite_zero _ (by omega), ite_zero _ (by omega)]

lemma pt_dl_lr (H W i a : Nat) (hH : 2 ≤ H) (hW : 2 ≤ W) (hi : i < H - 1)
    (ha : a < H - 1) :
    lCell H W (uedge (pk H W 0 i 0) (pk H W 1 (i+1) 0)) a
      + rCell H W (uedge (pk H W 0 i 0) (pk H W 1 (i+1) 0)) a
      = ind (a = i) + ind (a = i) := by
  unfold lCell rCell
  rw [fcnt_eval, fcnt_eval, fcnt_eval, fcnt_eval]
  simp (disch := omega) only [uedge_pk_valid, true_and, and_true]
  rw [ite_zero _ (by omega), ite_zero _ (by omega),
      ite_ind _ (a = i) (by omega), ite_ind _ (a = i) (by omega),
      ite_zero _ (by omega), ite_zero _ (by omega), ite_zero _ (by omega),
      ite_zero _ (by omega), ite_zero _ (by omega), ite_zero _ (by omega),
      ite_zero _ (by omega), ite_zero _ (by omega)]
  omega

lemma pt_dl_fb (H W i b : Nat) (hH : 2 ≤ H) (hW : 2 ≤ W) (hi : i < H - 1)
    (hb : b < W - 1) :
    fCell H W (uedge (pk H W 0 i 0) (pk H W 1 (i+1) 0)) b
      + bCell H W (uedge (pk H W 0 i 0) (pk H W 1 (i+1) 0)) b = 0 := by
  unfold fCell bCell
  rw [fcnt_eval, fcnt_eval, fcnt_eval, fcnt_eval]
  simp (disch := omega) only [uedge_pk_valid, true_and, and_true]
  rw [ite_zero _ (by omega), ite_zero _ (by omega), ite_zero _ (by omega),
      ite_zero _ (by omega), ite_zero _ (by omega), ite_zero _ (by omega),
      ite_zero _ (by omega), ite_zero _ (by omega), ite_zero _ (by omega),
      ite_zero _ (by omega), ite_zero _ (by omega), ite_zero _ (by omega)]

/-- Every left-wall quad diagonal lies in exactly two triangles. -/
lemma cnt_dl (H W i : Nat) (hH : 2 ≤ H) (hW : 2 ≤ W) (hi : i < H - 1) :
    (meshEdges H W).count (uedge (pk H W 0 i 0) (pk H W 1 (i+1) 0)) = 2 := by
  rw [meshEdges_count]
  have hT : cntT H W (uedge (pk H W 0 i 0) (pk H W 1 (i+1) 0)) = 0 := by
    unfold cntT
    rw [Finset.sum_congr rfl fun a ha => Finset.sum_congr rfl fun b hb =>
      pt_dl_g0 H W i a b hH hW hi (Finset.mem_range.mp ha) (Finset.mem_range.mp hb)]
    simp
  have hB : cntB H W (uedge (pk H W 0 i 0) (pk H W 1 (i+1) 0)) = 0 := by
    unfold cntB
    rw [Finset.sum_congr rfl fun a ha => Finset.sum_congr rfl fun b hb =>
      pt_dl_g1 H W i a b hH hW hi (Finset.mem_range.mp ha) (Finset.mem_range.mp hb)]
    simp
  have hLR : cntLR H W (uedge (pk H W 0 i 0) (pk H W 1 (i+1) 0))
      = ind (i < H - 1) + ind (i < H - 1) := by
    unfold cntLR
    rw [Finset.sum_congr rfl fun a ha =>
      pt_dl_lr H W i a hH hW hi (Finset.mem_range.mp ha)]
    simp only [Finset.sum_add_distrib]
    rw [sum1_ind0]
  have hFB : cntFB H W (uedge (pk H W 0 i 0) (pk H W 1 (i+1) 0)) = 0 := by
    unfold cntFB
    rw [Finset.sum_congr rfl fun b hb =>
      pt_dl_fb H W i b hH hW hi (Finset.mem_range.mp hb)]
    simp
  rw [hT, hB, hLR, hFB]
  unfold ind
  split_ifs <;> omega

lemma pt_dr_g0 (H W i a b : Nat) (hH : 2 ≤ H) (hW : 2 ≤ W) (hi : i < H - 1)
    (ha : a < H - 1) (hb : b < W - 1) :
    gridCell H W 0 (uedge (pk H W 0 i (W-1)) (pk H W 1 (i+1) (W-1))) a b = 0 := by
  unfold gridCell
  rw [fcnt_eval, fcnt_eval]
  simp (disch := omega) only [uedge_pk_valid, true_and, and_true]
  rw [ite_zero _ (by omega), ite_zero _ (by omega), ite_zero _ (by omega),
      ite_zero _ (by omega), ite_zero _ (by omega), ite_zero _ (by omega)]

lemma pt_dr_g1 (H W i a b : Nat) (hH : 2 ≤ H) (hW : 2 ≤ W) (hi : i < H - 1)
    (ha : a < H - 1) (hb : b < W - 1) :
    gridCell H W 1 (uedge (pk H W 0 i (W-1)) (pk H W 1 (i+1) (W-1))) a b = 0 := by
  unfold gridCell
  rw [fcnt_eval, fcnt_eval]
  simp (disch := omega) only [uedge_pk_valid, true_and, and_true]
  rw [ite_zero _ (by omega), ite_zero _ (by omega), ite_zero _ (by omega),
      ite_zero _ (by omega), ite_zero _ (by omega), ite_zero _ (by omega)]

lemma pt_dr_lr (H W i a : Nat) (hH : 2 ≤ H) (hW : 2 ≤ W) (hi : i < H - 1)
    (ha : a < H - 1) :
    lCell H W (uedge (pk H W 0 i (W-1)) (pk H W 1 (i+1) (W-1))) a
      + rCell H W (uedge (pk H W 0 i (W-1)) (pk H W 1 (i+1) (W-1))) a
      = ind (a = i) + ind (a = i) := by
  unfold lCell rCell
  rw [fcnt_eval, fcnt_eval, fcnt_eval, fcnt_eval]
  simp (disch := omega) only [uedge_pk_valid, true_and, and_true]
  rw [ite_zero _ (by omega), ite_zero _ (by omega), ite_zero _ (by omega),
      ite_zero _ (by omega), ite_zero _ (by omega), ite_zero _ (by omega),
      ite_ind _ (a = i) (by omega),
      ite_zero _ (by omega), ite_zero _ (by omega), ite_zero _ (by omega),
      ite_zero _ (by omega),
      ite_ind _ (a = i) (by omega)]
  omega

lemma pt_dr_fb (H W i b : Nat) (hH : 2 ≤ H) (hW : 2 ≤ W) (hi : i < H - 1)
    (hb : b < W - 1) :
    fCell H W (uedge (pk H W 0 i (W-1)) (pk H W 1 (i+1) (W-1))) b
      + bCell H W (uedge (pk H W 0 i (W-1)) (pk H W 1 (i+1) (W-1))) b = 0 := by
  unfold fCell bCell
  rw [fcnt_eval, fcnt_eval, fcnt_eval, fcnt_eval]
  simp (disch := omega) only [uedge_pk_valid, true_and, and_true]
  rw [ite_zero _ (by omega), ite_zero _ (by omega), ite_zero _ (by omega),
      ite_zero _ (by omega), ite_zero _ (by omega), ite_zero _ (by omega),
      ite_zero _ (by omega), ite_zero _ (by omega), ite_zero _ (by omega),
      ite_zero _ (by omega), ite_zero _ (by omega), ite_zero _ (by omega)]

/-- Every right-wall quad diagonal lies in exactly two triangles. -/
lemma cnt_dr (H W i : Nat) (hH : 2 ≤ H) (hW : 2 ≤ W) (hi : i < H - 1) :
    (meshEdges H W).count (uedge (pk H W 0 i (W-1)) (pk H W 1 (i+1) (W-1))) = 2 := by
  rw [meshEdges_count]
  have hT : cntT H W (uedge (pk H W 0 i (W-1)) (pk H W 1 (i+1) (W-1))) = 0 := by
    unfold cntT
    rw [Finset.sum_congr rfl fun a ha => Finset.sum_congr rfl fun b hb =>
      pt_dr_g0 H W i a b hH hW hi (Finset.mem_range.mp ha) (Finset.mem_range.mp hb)]
    simp
  have hB : cntB H W (uedge (pk H W 0 i (W-1)) (pk H W 1 (i+1) (W-1))) = 0 := by
    unfold cntB
    rw [Finset.sum_congr rfl fun a ha => Finset.sum_congr rfl fun b hb =>
      pt_dr_g1 H W i a b hH hW hi (Finset.mem_range.mp ha) (Finset.mem_range.mp hb)]
    simp
  have hLR : cntLR H W (uedge (pk H W 0 i (W-1)) (pk H W 1 (i+1) (W-1)))
      = ind (i < H - 1) + ind (i < H - 1) := by
    unfold cntLR
    rw [Finset.sum_congr rfl fun a ha =>
      pt_dr_lr H W i a hH hW hi (Finset.mem_range.mp ha)]
    simp only [Finset.sum_add_distrib]
    rw [sum1_ind0]
  have hFB : cntFB H W (uedge (pk H W 0 i (W-1)) (pk H W 1 (i+1) (W-1))) = 0 := by
    unfold cntFB
    rw [Finset.sum_congr rfl fun b hb =>
      pt_dr_fb H W i b hH hW hi (Finset.mem_range.mp hb)]
    simp
  rw [hT, hB, hLR, hFB]
  unfold ind
  split_ifs <;> omega

lemma pt_df_g0 (H W j a b : Nat) (hH : 2 ≤ H) (hW : 2 ≤ W) (hj : j < W - 1)
    (ha : a < H - 1) (hb : b < W - 1) :
    gridCell H W 0 (uedge (pk H W 0 0 j) (pk H W 1 0 (j+1))) a b = 0 := by
  unfold gridCell
  rw [fcnt_eval, fcnt_eval]
  simp (disch := omega) only [uedge_pk_valid, true_and, and_true]
  rw [ite_zero _ (by omega), ite_zero _ (by omega), ite_zero _ (by omega),
      ite_zero _ (by omega), ite_zero _ (by omega), ite_zero _ (by omega)]

lemma pt_df_g1 (H W j a b : Nat) (hH : 2 ≤ H) (hW : 2 ≤ W) (hj : j < W - 1)
    (ha : a < H - 1) (hb : b < W - 1) :
    gridCell H W 1 (uedge (pk H W 0 0 j) (pk H W 1 0 (j+1))) a b = 0 := by
  unfold gridCell
  rw [fcnt_eval, fcnt_eval]
  simp (disch := omega) only [uedge_pk_valid, true_and, and_true]
  rw [ite_zero _ (by omega), ite_zero _ (by omega), ite_zero _ (by omega),
      ite_zero _ (by omega), ite_zero _ (by omega), ite_zero _ (by omega)]

lemma pt_df_lr (H W j a : Nat) (hH : 2 ≤ H) (hW : 2 ≤ W) (hj : j < W - 1)
    (ha : a < H - 1) :
    lCell H W (uedge (pk H W 0 0 j) (pk H W 1 0 (j+1))) a
      + rCell H W (uedge (pk H W 0 0 j) (pk H W 1 0 (j+1))) a = 0 := by
  unfold lCell rCell
  rw [fcnt_eval, fcnt_eval, fcnt_eval, fcnt_eval]
  simp (disch := omega) only [uedge_pk_valid, true_and, and_true]
  rw [ite_zero _ (by omega), ite_zero _ (by omega), ite_zero _ (by omega),
      ite_zero _ (by omega), ite_zero _ (by omega), ite_zero _ (by omega),
      ite_zero _ (by omega), ite_zero _ (by omega), ite_zero _ (by omega),
      ite_zero _ (by omega), ite_zero _ (by omega), ite_zero _ (by omega)]

lemma pt_df_fb (H W j b : Nat) (hH : 2 ≤ H) (hW : 2 ≤ W) (hj : j < W - 1)
    (hb : b < W - 1) :
    fCell H W (uedge (pk H W 0 0 j) (pk H W 1 0 (j+1))) b
      + bCell H W (uedge (pk H W 0 0 j) (pk H W 1 0 (j+1))) b
      = ind (b = j) + ind (b = j) := by
  unfold fCell bCell
  rw [fcnt_eval, fcnt_eval, fcnt_eval, fcnt_eval]
  simp (disch := omega) only [uedge_pk_valid, true_and, and_true]
  rw [ite_zero _ (by omega), ite_zero _ (by omega),
      ite_ind _ (b = j) (by omega), ite_ind _ (b = j) (by omega),
      ite_zero _ (by omega), ite_zero _ (by omega), ite_zero _ (by omega),
      ite_zero _ (by omega), ite_zero _ (by omega), ite_zero _ (by omega),
      ite_zero _ (by omega), ite_zero _ (by omega)]
  omega

/-- Every front-wall quad diagonal lies in exactly two triangles. -/
lemma cnt_df (H W j : Nat) (hH : 2 ≤ H) (hW : 2 ≤ W) (hj : j < W - 1) :
    (meshEdges H W).count (uedge (pk H W 0 0 j) (pk H W 1 0 (j+1))) = 2 := by
  rw [meshEdges_count]
  have hT : cntT H W (uedge (pk H W 0 0 j) (pk H W 1 0 (j+1))) = 0 := by
    unfold cntT
    rw [Finset.sum_congr rfl fun a ha => Finset.sum_congr rfl fun b hb =>
      pt_df_g0 H W j a b hH hW hj (Finset.mem_range.mp ha) (Finset.mem_range.mp hb)]
    simp
  have hB : cntB H W (uedge (pk H W 0 0 j) (pk H W 1 0 (j+1))) = 0 := by
    unfold cntB
    rw [Finset.sum_congr rfl fun a ha => Finset.sum_congr rfl fun b hb =>
      pt_df_g1 H W j a b hH hW hj (Finset.mem_range.mp ha) (Finset.mem_range.mp hb)]
    simp
  have hLR : cntLR H W (uedge (pk H W 0 0 j) (pk H W 1 0 (j+1))) = 0 := by
    unfold cntLR
    rw [Finset.sum_congr rfl fun a ha =>
      pt_df_lr H W j a hH hW hj (Finset.mem_range.mp ha)]
    simp
  have hFB : cntFB H W (uedge (pk H W 0 0 j) (pk H W 1 0 (j+1)))
      = ind (j < W - 1) + ind (j < W - 1) := by
    unfold cntFB
    rw [Finset.sum_congr rfl fun b hb =>
      pt_df_fb H W j b hH hW hj (Finset.mem_range.mp hb)]
    simp only [Finset.sum_add_distrib]
    rw [sum1_ind0]
  rw [hT, hB, hLR, hFB]
  unfold ind
  split_ifs <;> omega

lemma pt_db_g0 (H W j a b : Nat) (hH : 2 ≤ H) (hW : 2 ≤ W) (hj : j < W - 1)
    (ha : a < H - 1) (hb : b < W - 1) :
    gridCell H W 0 (uedge (pk H W 0 (H-1) j) (pk H W 1 (H-1) (j+1))) a b = 0 := by
  unfold gridCell
  rw [fcnt_eval, fcnt_eval]
  simp (disch := omega) only [uedge_pk_valid, true_and, and_true]
  rw [ite_zero _ (by omega), ite_zero _ (by omega), ite_zero _ (by omega),
      ite_zero _ (by omega), ite_zero _ (by omega), ite_zero _ (by omega)]

lemma pt_db_g1 (H W j a b : Nat) (hH : 2 ≤ H) (hW : 2 ≤ W) (hj : j < W - 1)
    (ha : a < H - 1) (hb : b < W - 1) :
    gridCell H W 1 (uedge (pk H W 0 (H-1) j) (pk H W 1 (H-1) (j+1))) a b = 0 := by
  unfold gridCell
  rw [fcnt_eval, fcnt_eval]
  simp (disch := omega) only [uedge_pk_valid, true_and, and_true]
  rw [ite_zero _ (by omega), ite_zero _ (by omega), ite_zero _ (by omega),
      ite_zero _ (by omega), ite_zero _ (by omega), ite_zero _ (by omega)]

lemma pt_db_lr (H W j a : Nat) (hH : 2 ≤ H) (hW : 2 ≤ W) (hj : j < W - 1)
    (ha : a < H - 1) :
    lCell H W (uedge (pk H W 0 (H-1) j) (pk H W 1 (H-1) (j+1))) a
      + rCell H W (uedge (pk H W 0 (H-1) j) (pk H W 1 (H-1) (j+1))) a = 0 := by
  unfold lCell rCell
  rw [fcnt_eval, fcnt_eval, fcnt_eval, fcnt_eval]
  simp (disch := omega) only [uedge_pk_valid, true_and, and_true]
  rw [ite_zero _ (by omega), ite_zero _ (by omega), ite_zero _ (by omega),
      ite_zero _ (by omega), ite_zero _ (by omega), ite_zero _ (by omega),
      ite_zero _ (by omega), ite_zero _ (by omega), ite_zero _ (by omega),
      ite_zero _ (by omega), ite_zero _ (by omega), ite_zero _ (by omega)]

lemma pt_db_fb (H W j b : Nat) (hH : 2 ≤ H) (hW : 2 ≤ W) (hj : j < W - 1)
    (hb : b < W - 1) :
    fCell H W (uedge (pk H W 0 (H-1) j) (pk H W 1 (H-1) (j+1))) b
      + bCell H W (uedge (pk H W 0 (H-1) j) (pk H W 1 (H-1) (j+1))) b
      = ind (b = j) + ind (b = j) := by
  unfold fCell bCell
  rw [fcnt_eval, fcnt_eval, fcnt_eval, fcnt_eval]
  simp (disch := omega) only [uedge_pk_valid, true_and, and_true]
  rw [ite_zero _ (by omega), ite_zero _ (by omega), ite_zero _ (by omega),
      ite_zero _ (by omega), ite_zero _ (by omega), ite_zero _ (by omega),
      ite_ind _ (b = j) (by omega),
      ite_zero _ (by omega), ite_zero _ (by omega), ite_zero _ (by omega),
      ite_zero _ (by omega),
      ite_ind _ (b = j) (by omega)]
  omega

/-- Every back-wall quad diagonal lies in exactly two triangles. -/
lemma cnt_db (H W j : Nat) (hH : 2 ≤ H) (hW : 2 ≤ W) (hj : j < W - 1) :
    (meshEdges H W).count (uedge (pk H W 0 (H-1) j) (pk H W 1 (H-1) (j+1))) = 2 := by
  rw [meshEdges_count]
  have hT : cntT H W (uedge (pk H W 0 (H-1) j) (pk H W 1 (H-1) (j+1))) = 0 := by
    unfold cntT
    rw [Finset.sum_congr rfl fun a ha => Finset.sum_congr rfl fun b hb =>
      pt_db_g0 H W j a b hH hW hj (Finset.mem_range.mp ha) (Finset.mem_range.mp hb)]
    simp
  have hB : cntB H W (uedge (pk H W 0 (H-1) j) (pk H W 1 (H-1) (j+1))) = 0 := by
    unfold cntB
    rw [Finset.sum_congr rfl fun a ha => Finset.sum_congr rfl fun b hb =>
      pt_db_g1 H W j a b hH hW hj (Finset.mem_range.mp ha) (Finset.mem_range.mp hb)]
    simp
  have hLR : cntLR H W (uedge (pk H W 0 (H-1) j) (pk H W 1 (H-1) (j+1))) = 0 := by
    unfold cntLR
    rw [Finset.sum_congr rfl fun a ha =>
      pt_db_lr H W j a hH hW hj (Finset.mem_range.mp ha)]
    simp
  have hFB : cntFB H W (uedge (pk H W 0 (H-1) j) (pk H W 1 (H-1) (j+1)))
      = ind (j < W - 1) + ind (j < W - 1) := by
    unfold cntFB
    rw [Finset.sum_congr rfl fun b hb =>
      pt_db_fb H W j b hH hW hj (Finset.mem_range.mp hb)]
    simp only [Finset.sum_add_distrib]
    rw [sum1_ind0]
  rw [hT, hB, hLR, hFB]
  unfold ind
  split_ifs <;> omega

/-- The master closure theorem: for `H, W ≥ 2`, every undirected edge that
occurs in some triangle of the face buffer occurs in exactly two. -/
lemma meshEdges_closed (H W : Nat) (hH : 2 ≤ H) (hW : 2 ≤ W) :
    ∀ e ∈ meshEdges H W, (meshEdges H W).count e = 2 := by
  intro e he
  unfold meshEdges allFaces sideFaces at he
  rw [topFaces_pk, bottomFaces_pk, sideFacesLR_pk, sideFacesFB_pk] at he
  simp only [List.mem_flatMap, List.mem_append, List.mem_range, List.mem_cons,
    List.not_mem_nil, or_false, faceEdges] at he
  obtain ⟨f, hf, hslot⟩ := he
  rcases hf with (⟨a, ha, b, hb, rfl | rfl⟩ |
      ⟨a, ha, rfl | rfl | rfl | rfl⟩ | ⟨b, hb, rfl | rfl | rfl | rfl⟩) |
      ⟨a, ha, b, hb, rfl | rfl⟩
  · -- top face T1
    rcases hslot with rfl | rfl | rfl
    · exact cnt_tv H W a b hH hW (by omega) (by omega)
    · rw [uedge_comm]; exact cnt_td H W a b hH hW (by omega) (by omega)
    · rw [uedge_comm]; exact cnt_th H W a b hH hW (by omega) (by omega)
  · -- top face T2
    rcases hslot with rfl | rfl | rfl
    · exact cnt_td H W a b hH hW (by omega) (by omega)
    · exact cnt_th H W (a+1) b hH hW (by omega) (by omega)
    · rw [uedge_comm]; exact cnt_tv H W a (b+1) hH hW (by omega) (by omega)
  · -- left wall L1
    rcases hslot with rfl | rfl | rfl
    · exact cnt_vv H W a 0 hH hW (by omega) (by omega) (by omega)
    · exact cnt_bv H W a 0 hH hW (by omega) (by omega)
    · rw [uedge_comm]; exact cnt_dl H W a hH hW (by omega)
  · -- left wall L2
    rcases hslot with rfl | rfl | rfl
    · exact cnt_dl H W a hH hW (by omega)
    · rw [uedge_comm]; exact cnt_vv H W (a+1) 0 hH hW (by omega) (by omega) (by omega)
    · rw [uedge_comm]; exact cnt_tv H W a 0 hH hW (by omega) (by omega)
  · -- right wall R1
    rcases hslot with rfl | rfl | rfl
    · exact cnt_dr H W a hH hW (by omega)
    · rw [uedge_comm]; exact cnt_bv H W a (W-1) hH hW (by omega) (by omega)
    · rw [uedge_comm]; exact cnt_vv H W a (W-1) hH hW (by omega) (by omega) (by omega)
  · -- right wall R2
    rcases hslot with rfl | rfl | rfl
    · exact cnt_tv H W a (W-1) hH hW (by omega) (by omega)
    · exact cnt_vv H W (a+1) (W-1) hH hW (by omega) (by omega) (by omega)
    · rw [uedge_comm]; exact cnt_dr H W a hH hW (by omega)
  · -- front wall F1
    rcases hslot with rfl | rfl | rfl
    · exact cnt_vv H W 0 b hH hW (by omega) (by omega) (by omega)
    · exact cnt_bh H W 0 b hH hW (by omega) (by omega)
    · rw [uedge_comm]; exact cnt_df H W b hH hW (by omega)
  · -- front wall F2
    rcases hslot with rfl | rfl | rfl
    · exact cnt_df H W b hH hW (by omega)
    · rw [uedge_comm]; exact cnt_vv H W 0 (b+1) hH hW (by omega) (by omega) (by omega)
    · rw [uedge_comm]; exact cnt_th H W 0 b hH hW (by omega) (by omega)
  · -- back wall Bk1
    rcases hslot with rfl | rfl | rfl
    · exact cnt_db H W b hH hW (by omega)
    · rw [uedge_comm]; exact cnt_bh H W (H-1) b hH hW (by omega) (by omega)
    · rw [uedge_comm]; exact cnt_vv H W (H-1) b hH hW (by omega) (by omega) (by omega)
  · -- back wall Bk2
    rcases hslot with rfl | rfl | rfl
    · exact cnt_th H W (H-1) b hH hW (by omega) (by omega)
    · exact cnt_vv H W (H-1) (b+1) hH hW (by omega) (by omega) (by omega)
    · rw [uedge_comm]; exact cnt_db H W b hH hW (by omega)
  · -- bottom face B1
    rcases hslot with rfl | rfl | rfl
    · exact cnt_bv H W a b hH hW (by omega) (by omega)
    · rw [uedge_comm]; exact cnt_bd H W a b hH hW (by omega) (by omega)
    · rw [uedge_comm]; exact cnt_bh H W a b hH hW (by omega) (by omega)
  · -- bottom face B2
    rcases hslot with rfl | rfl | rfl
    · exact cnt_bd H W a b hH hW (by omega) (by omega)
    · exact cnt_bh H W (a+1) b hH hW (by omega) (by omega)
    · rw [uedge_comm]; exact cnt_bv H W a (b+1) hH hW (by omega) (by omega)

/-- C1: for every input grid with H ≥ 2 and W ≥ 2, the face buffer produced
by `depthmap_to_3d_mesh` (top, wall and bottom faces concatenated) describes
a closed mesh: every undirected edge occurring in some triangle occurs in
exactly two triangles. -/
theorem mesh_closed (g : Grid) (width depth base_thickness : ℚ)
    (hH : 2 ≤ gridH g) (hW : 2 ≤ gridW g) :
    ∀ e ∈ ((buildMesh g width depth base_thickness).2.flatMap faceEdges),
      (((buildMesh g width depth base_thickness).2.flatMap faceEdges).count e) = 2 :=
  meshEdges_closed (gridH g) (gridW g) hH hW

/-- Witness for C1 at the concrete 2×2 all-white grid: the edge `(0, 2)`
occurs in the buffer, and its count is 2. -/
theorem mesh_closed_witness :
    2 ≤ gridH [[(1:ℚ), 1], [1, 1]] ∧ 2 ≤ gridW [[(1:ℚ), 1], [1, 1]] ∧
    (0, 2) ∈ ((buildMesh [[(1:ℚ), 1], [1, 1]] 10 5 1).2.flatMap faceEdges) ∧
    (((buildMesh [[(1:ℚ), 1], [1, 1]] 10 5 1).2.flatMap faceEdges).count (0, 2)) = 2 :=
  ⟨by decide, by decide, by decide,
    mesh_closed [[(1:ℚ), 1], [1, 1]] 10 5 1 (by decide) (by decide) (0, 2) (by decide)⟩

/-! ### Buffer sizes and index bounds -/

lemma length_gridList {α : Type} (n m : Nat) (f : Nat → Nat → α) :
    ((List.range n).flatMap fun i => (List.range m).map fun j => f i j).length
      = n * m := by
  induction n with
  | zero => simp
  | succ n ih =>
      rw [List.range_succ]
      simp only [List.flatMap_append, List.length_append, ih, List.flatMap_cons,
        List.flatMap_nil, List.append_nil, List.length_map, List.length_range]
      ring

lemma length_flatMap_const {α : Type} (n k : Nat) (f : Nat → List α)
    (h : ∀ i, (f i).length = k) :
    ((List.range n).flatMap f).length = n * k := by
  induction n with
  | zero => simp
  | succ n ih =>
      rw [List.range_succ]
      simp only [List.flatMap_append, List.length_append, ih, List.flatMap_cons,
        List.flatMap_nil, List.append_nil, h]
      ring

lemma topFaces_length (H W : Nat) : (topFaces H W).length = 2 * ((H-1) * (W-1)) := by
  unfold topFaces
  refine Eq.trans (length_flatMap_const (H-1) ((W-1) * 2) _ ?_) (by ring)
  intro i
  exact length_flatMap_const (W-1) 2 _ fun j => rfl

lemma bottomFaces_length (H W : Nat) : (bottomFaces H W).length = 2 * ((H-1) * (W-1)) := by
  unfold bottomFaces
  refine Eq.trans (length_flatMap_const (H-1) ((W-1) * 2) _ ?_) (by ring)
  intro i
  exact length_flatMap_const (W-1) 2 _ fun j => rfl

lemma sideFaces_length (H W : Nat) : (sideFaces H W).length = 4 * (H-1) + 4 * (W-1) := by
  unfold sideFaces sideFacesLR sideFacesFB
  rw [List.length_append]
  refine Eq.trans (congrArg (· + ((List.range (W-1)).flatMap _).length)
    (length_flatMap_const (H-1) 4 _ ?_)) ?_
  · intro i; rfl
  refine Eq.trans (congrArg ((H-1) * 4 + ·) (length_flatMap_const (W-1) 4 _ ?_)) (by ring)
  intro j; rfl

lemma vertices_length (g : Grid) (width depth base_thickness : ℚ) :
    (buildMesh g width depth base_thickness).1.length = 2 * (gridH g * gridW g) := by
  unfold buildMesh topVertices bottomVertices
  rw [List.length_map, List.length_append, length_gridList, length_gridList]
  ring

lemma allFaces_bounded (H W : Nat) (hH : 2 ≤ H) (hW : 2 ≤ W) :
    ∀ f ∈ allFaces H W, f.1 < 2 * (H * W) ∧ f.2.1 < 2 * (H * W) ∧ f.2.2 < 2 * (H * W) := by
  have hpk : ∀ l i j, l < 2 → i < H → j < W → pk H W l i j < 2 * (H * W) := by
    intro l i j hl hi hj
    have hr := rowmajor_lt hi hj
    unfold pk
    calc l * (H * W) + i * W + j < l * (H * W) + H * W := by omega
      _ = (l + 1) * (H * W) := by ring
      _ ≤ 2 * (H * W) := Nat.mul_le_mul_right _ (by omega)
  intro f hf
  unfold allFaces sideFaces at hf
  rw [topFaces_pk, bottomFaces_pk, sideFacesLR_pk, sideFacesFB_pk] at hf
  simp only [List.mem_flatMap, List.mem_append, List.mem_range, List.mem_cons,
    List.not_mem_nil, or_false] at hf
  rcases hf with (⟨a, ha, b, hb, rfl | rfl⟩ |
      ⟨a, ha, rfl | rfl | rfl | rfl⟩ | ⟨b, hb, rfl | rfl | rfl | rfl⟩) |
      ⟨a, ha, b, hb, rfl | rfl⟩ <;>
    exact ⟨hpk _ _ _ (by omega) (by omega) (by omega),
      hpk _ _ _ (by omega) (by omega) (by omega),
      hpk _ _ _ (by omega) (by omega) (by omega)⟩

/-- C10: every index appearing in any triangle of the combined face buffer
references a valid entry of the combined top+bottom vertex buffer. -/
theorem face_indices_valid (g : Grid) (width depth base_thickness : ℚ)
    (hH : 2 ≤ gridH g) (hW : 2 ≤ gridW g) :
    ∀ f ∈ (buildMesh g width depth base_thickness).2,
      f.1 < (buildMesh g width depth base_thickness).1.length ∧
      f.2.1 < (buildMesh g width depth base_thickness).1.length ∧
      f.2.2 < (buildMesh g width depth base_thickness).1.length := by
  intro f hf
  rw [vertices_length]
  exact allFaces_bounded (gridH g) (gridW g) hH hW f hf

/-- Witness for C10 on the 2×2 all-white grid. -/
theorem face_indices_valid_witness :
    (0, 2, 1) ∈ (buildMesh [[(1:ℚ), 1], [1, 1]] 10 5 1).2 ∧
    (0:Nat) < (buildMesh [[(1:ℚ), 1], [1, 1]] 10 5 1).1.length := by
  refine ⟨by decide, ?_⟩
  exact (face_indices_valid [[(1:ℚ), 1], [1, 1]] 10 5 1 (by decide) (by decide)
    (0, 2, 1) (by decide)).1

/-- C9: the surface mesher emits, for each cell `(i, j)`, exactly the two
triangles `(idx, idx+W, idx+1)` and `(idx+1, idx+W, idx+W+1)` with
`idx = i*W + j`, and no other top-surface faces. -/
theorem topFaces_exact (H W : Nat) (hH : 2 ≤ H) (hW : 2 ≤ W) :
    (∀ i j, i < H - 1 → j < W - 1 →
      (i*W + j, i*W + j + W, i*W + j + 1) ∈ topFaces H W ∧
      (i*W + j + 1, i*W + j + W, i*W + j + W + 1) ∈ topFaces H W) ∧
    (∀ f ∈ topFaces H W, ∃ i j, i < H - 1 ∧ j < W - 1 ∧
      (f = (i*W + j, i*W + j + W, i*W + j + 1) ∨
       f = (i*W + j + 1, i*W + j + W, i*W + j + W + 1))) := by
  constructor
  · intro i j hi hj
    constructor <;>
    · simp only [topFaces, List.mem_flatMap, List.mem_range, List.mem_cons,
        List.not_mem_nil, or_false]
      exact ⟨i, hi, j, hj, by simp⟩
  · intro f hf
    simp only [topFaces, List.mem_flatMap, List.mem_range, List.mem_cons,
      List.not_mem_nil, or_false] at hf
    obtain ⟨i, hi, j, hj, h⟩ := hf
    exact ⟨i, j, hi, hj, h⟩

/-- Witness for C9 at H = W = 2, cell (0, 0). -/
theorem topFaces_exact_witness :
    (0, 2, 1) ∈ topFaces 2 2 ∧ (1, 2, 3) ∈ topFaces 2 2 ∧
    ∃ i j, i < 2 - 1 ∧ j < 2 - 1 ∧
      ((0, 2, 1) = (i*2 + j, i*2 + j + 2, i*2 + j + 1) ∨
       (0, 2, 1) = (i*2 + j + 1, i*2 + j + 2, i*2 + j + 2 + 1)) := by
  have h := topFaces_exact 2 2 (by decide) (by decide)
  refine ⟨?_, ?_, h.2 (0, 2, 1) (by decide)⟩
  · exact ((h.1 0 0 (by decide) (by decide)).1)
  · exact ((h.1 0 0 (by decide) (by decide)).2)

/-- Amended C3: each bottom-face triangle is the corresponding top-surface
triangle with all indices offset by `N = H*W`, with the SAME winding order
(the source does not reverse the winding). -/
theorem bottomFaces_are_offset_topFaces (H W : Nat) :
    bottomFaces H W = (topFaces H W).map
      (fun f => (H*W + f.1, H*W + f.2.1, H*W + f.2.2)) := by
  unfold topFaces bottomFaces
  rw [List.map_flatMap]
  simp [List.map_flatMap, Nat.add_assoc, Nat.add_comm, Nat.add_left_comm]

/-- A triangle `t` is `s` with reversed winding (an orientation-reversing
permutation of its vertices). -/
def revWindingOf (s t : Face) : Prop :=
  t = (s.2.2, s.2.1, s.1) ∨ t = (s.2.1, s.1, s.2.2) ∨ t = (s.1, s.2.2, s.2.1)

instance (s t : Face) : Decidable (revWindingOf s t) := by
  unfold revWindingOf
  infer_instance

/-- Counterexample to C3 as stated: at H = W = 2, the first bottom triangle
is NOT a reversed-winding copy of the first top triangle offset by N = 4. -/
theorem bottom_winding_counterexample :
    ¬ (∀ k, k < (bottomFaces 2 2).length →
        revWindingOf
          (let s := (topFaces 2 2).getD k (0, 0, 0)
           (2*2 + s.1, 2*2 + s.2.1, 2*2 + s.2.2))
          ((bottomFaces 2 2).getD k (0, 0, 0))) := by
  intro h
  exact absurd (h 0 (by decide)) (by decide)

/-! ### Buffer sizes (C2) -/

/-- Counterexample to C2 as stated: on a 2×2 grid the vertex count is 8 but
the claimed face count 2·2·1·1 + 2·2·1·1 + 2·2·(1+1) = 16 is wrong (the
buffer has 12 triangles). -/
theorem face_count_formula_counterexample :
    ¬ ((buildMesh [[(1:ℚ), 1], [1, 1]] 10 5 1).1.length = 2 * 2 * 2 ∧
       (buildMesh [[(1:ℚ), 1], [1, 1]] 10 5 1).2.length
         = 2 * 2 * (2-1) * (2-1) + 2 * 2 * (2-1) * (2-1) + 2 * 2 * ((2-1) + (2-1))) := by
  intro h
  have h1 : (buildMesh [[(1:ℚ), 1], [1, 1]] 10 5 1).1.length = 8 :=
    vertices_length [[(1:ℚ), 1], [1, 1]] 10 5 1
  have h2 : (buildMesh [[(1:ℚ), 1], [1, 1]] 10 5 1).2.length = 12 := by decide
  omega

/-- Amended C2: the assembled mesh has 2·H·W vertices; the top group has
2·(H−1)·(W−1) faces, the bottom group 2·(H−1)·(W−1), and the wall group
2·2·((H−1)+(W−1)). -/
theorem buffer_sizes (g : Grid) (width depth base_thickness : ℚ)
    (hH : 2 ≤ gridH g) (hW : 2 ≤ gridW g) :
    (buildMesh g width depth base_thickness).1.length = 2 * (gridH g * gridW g) ∧
    (topFaces (gridH g) (gridW g)).length = 2 * ((gridH g - 1) * (gridW g - 1)) ∧
    (bottomFaces (gridH g) (gridW g)).length = 2 * ((gridH g - 1) * (gridW g - 1)) ∧
    (sideFaces (gridH g) (gridW g)).length = 2 * 2 * ((gridH g - 1) + (gridW g - 1)) ∧
    (buildMesh g width depth base_thickness).2.length
      = 2 * ((gridH g - 1) * (gridW g - 1)) + 2 * 2 * ((gridH g - 1) + (gridW g - 1))
        + 2 * ((gridH g - 1) * (gridW g - 1)) := by
  refine ⟨vertices_length g width depth base_thickness,
    topFaces_length _ _, bottomFaces_length _ _, ?_, ?_⟩
  · rw [sideFaces_length]; ring
  · show (allFaces (gridH g) (gridW g)).length = _
    unfold allFaces
    rw [List.length_append, List.length_append, topFaces_length, bottomFaces_length,
      sideFaces_length]
    ring

/-- Witness for C2 (amended) at the 2×2 all-white grid. -/
theorem buffer_sizes_witness :
    2 ≤ gridH [[(1:ℚ), 1], [1, 1]] ∧ 2 ≤ gridW [[(1:ℚ), 1], [1, 1]] ∧
    (buildMesh [[(1:ℚ), 1], [1, 1]] 10 5 1).1.length
      = 2 * (gridH [[(1:ℚ), 1], [1, 1]] * gridW [[(1:ℚ), 1], [1, 1]]) :=
  ⟨by decide, by decide,
    (buffer_sizes [[(1:ℚ), 1], [1, 1]] 10 5 1 (by decide) (by decide)).1⟩

/-! ### The concrete 2×2 all-white scenario (C4) -/

/-- Full evaluation of the pipeline on the 2×2 all-white grid with
width 10, depth 5, base thickness 1. -/
lemma pipeline_2x2 :
    depthmap_to_3d_mesh [[(1:ℚ), 1], [1, 1]] 10 5 1 MeshRes.unspecified
      = Except.ok
        ([(0, 0, -1), (10, 0, -1), (0, 10, -1), (10, 10, -1),
          (0, 0, -7), (10, 0, -7), (0, 10, -7), (10, 10, -7)],
         [(0, 2, 1), (1, 2, 3),
          (0, 4, 6), (0, 6, 2), (1, 7, 5), (1, 3, 7),
          (0, 4, 5), (0, 5, 1), (2, 7, 6), (2, 3, 7),
          (4, 6, 5), (5, 6, 7)]) := by
  norm_num [depthmap_to_3d_mesh, resample, flipud, buildMesh, topVertices, bottomVertices,
    allFaces, topFaces, sideFaces, sideFacesLR, sideFacesFB, bottomFaces,
    gridH, gridW, linspace, sample, List.range_succ, Except.map]

/-- Counterexample to C4 as stated: after the final z-shift the bottom
vertices sit at z = −7, not −6. -/
theorem scenario_2x2_counterexample :
    ¬ (∃ m, depthmap_to_3d_mesh [[(1:ℚ), 1], [1, 1]] 10 5 1 MeshRes.unspecified
          = Except.ok m ∧
        m.1.length = 8 ∧
        (∀ v ∈ m.1.take 4, v.2.2 = -1) ∧
        (∀ v ∈ m.1.drop 4, v.2.2 = -6) ∧
        m.2.length = 12) := by
  rintro ⟨m, hm, -, -, hbot, -⟩
  rw [pipeline_2x2] at hm
  obtain rfl := (Except.ok.inj hm).symm
  have h7 := hbot (0, 0, -7) (by simp)
  norm_num at h7

/-- Amended C4: the mesh has 8 vertices, top vertices at z = −1, bottom
vertices at z = −7, and 12 triangles (2 top, 8 wall, 2 bottom). -/
theorem scenario_2x2 :
    ∃ m, depthmap_to_3d_mesh [[(1:ℚ), 1], [1, 1]] 10 5 1 MeshRes.unspecified
        = Except.ok m ∧
      m.1.length = 8 ∧
      (∀ v ∈ m.1.take 4, v.2.2 = -1) ∧
      (∀ v ∈ m.1.drop 4, v.2.2 = -7) ∧
      m.2.length = 12 ∧
      (topFaces 2 2).length = 2 ∧ (sideFaces 2 2).length = 8 ∧
      (bottomFaces 2 2).length = 2 := by
  refine ⟨_, pipeline_2x2, by norm_num, ?_, ?_, by norm_num, by decide, by decide, by decide⟩
  · intro v hv
    simp only [List.take, List.mem_cons, List.not_mem_nil, or_false] at hv
    rcases hv with rfl | rfl | rfl | rfl <;> norm_num
  · intro v hv
    simp only [List.drop, List.mem_cons, List.not_mem_nil, or_false] at hv
    rcases hv with rfl | rfl | rfl | rfl <;> norm_num

/-! ### Height-mapping extremes (C5) -/

lemma getD_map_lt {α β : Type} (f : α → β) (l : List α) (n : Nat) (d : β) (d' : α)
    (h : n < l.length) : (l.map f).getD n d = f (l.getD n d') := by
  rw [List.getD_eq_getElem?_getD, List.getElem?_map, List.getElem?_eq_getElem h,
    List.getD_eq_getElem?_getD, List.getElem?_eq_getElem h]
  rfl

lemma getD_gridList {α : Type} (n m : Nat) (f : Nat → Nat → α) (d : α) (i j : Nat)
    (hi : i < n) (hj : j < m) :
    ((List.range n).flatMap fun a => (List.range m).map fun b => f a b).getD (i * m + j) d
      = f i j := by
  induction n with
  | zero => omega
  | succ n ih =>
      rw [List.range_succ, List.flatMap_append]
      rcases Nat.lt_or_ge i n with h | h
      · have hlen : i * m + j <
            ((List.range n).flatMap fun a => (List.range m).map fun b => f a b).length := by
          rw [length_gridList]
          exact rowmajor_lt h hj
        rw [List.getD_eq_getElem?_getD, List.getElem?_append_left hlen,
          ← List.getD_eq_getElem?_getD]
        exact ih h
      · have hi' : i = n := by omega
        subst hi'
        have hlen :
            ((List.range i).flatMap fun a => (List.range m).map fun b => f a b).length
              = i * m := length_gridList i m f
        have hge : ((List.range i).flatMap fun a => (List.range m).map fun b => f a b).length
            ≤ i * m + j := by rw [hlen]; omega
        rw [List.getD_eq_getElem?_getD, List.getElem?_append_right hge, hlen]
        have hidx : i * m + j - i * m = j := by omega
        rw [hidx]
        simp only [List.flatMap_cons, List.flatMap_nil, List.append_nil,
          List.getElem?_map, List.getElem?_range hj]
        rfl

/-- The final z of the top vertex of cell `(i, j)`:
`-depth * (1 - sample) - base_thickness`. -/
lemma buildMesh_top_z (g : Grid) (width depth base_thickness : ℚ) (i j : Nat)
    (hi : i < gridH g) (hj : j < gridW g) :
    ((buildMesh g width depth base_thickness).1.getD (i * gridW g + j) (0, 0, 0)).2.2
      = -depth * (1 - sample g i j) - base_thickness := by
  unfold buildMesh
  have hlt : i * gridW g + j
      < (topVertices g width depth ++ bottomVertices g width depth base_thickness).length := by
    rw [List.length_append]
    unfold topVertices
    rw [length_gridList]
    have := rowmajor_lt hi hj
    omega
  rw [getD_map_lt _ _ _ _ (0, 0, 0) hlt]
  have hlt2 : i * gridW g + j < (topVertices g width depth).length := by
    unfold topVertices
    rw [length_gridList]
    exact rowmajor_lt hi hj
  rw [List.getD_eq_getElem?_getD, List.getElem?_append_left hlt2,
    ← List.getD_eq_getElem?_getD]
  unfold topVertices
  rw [getD_gridList _ _ _ _ i j hi hj]

/-- C5: in the assembled mesh, a normalized sample of 1.0 at cell (i, j)
puts the top vertex at z = −baseThickness exactly, and a sample of 0.0 puts
it at z = −(depth + baseThickness) exactly. -/
theorem height_mapping_extremes (g : Grid) (width depth base_thickness : ℚ) (i j : Nat)
    (hi : i < gridH g) (hj : j < gridW g) :
    (sample g i j = 1 →
      ((buildMesh g width depth base_thickness).1.getD (i * gridW g + j) (0, 0, 0)).2.2
        = -base_thickness) ∧
    (sample g i j = 0 →
      ((buildMesh g width depth base_thickness).1.getD (i * gridW g + j) (0, 0, 0)).2.2
        = -(depth + base_thickness)) := by
  have hz := buildMesh_top_z g width depth base_thickness i j hi hj
  constructor <;> intro hs <;> rw [hz, hs] <;> ring

/-- Witness for C5 on the checker grid `[[1, 0], [0, 1]]`. -/
theorem height_mapping_extremes_witness :
    (0:Nat) < gridH [[(1:ℚ), 0], [0, 1]] ∧ (0:Nat) < gridW [[(1:ℚ), 0], [0, 1]] ∧
    sample [[(1:ℚ), 0], [0, 1]] 0 0 = 1 ∧
    ((buildMesh [[(1:ℚ), 0], [0, 1]] 10 5 1).1.getD (0 * gridW [[(1:ℚ), 0], [0, 1]] + 0)
        (0, 0, 0)).2.2 = -1 ∧
    sample [[(1:ℚ), 0], [0, 1]] 0 1 = 0 ∧
    ((buildMesh [[(1:ℚ), 0], [0, 1]] 10 5 1).1.getD (0 * gridW [[(1:ℚ), 0], [0, 1]] + 1)
        (0, 0, 0)).2.2 = -(5 + 1) :=
  ⟨by decide, by decide, by norm_num [sample],
    (height_mapping_extremes [[(1:ℚ), 0], [0, 1]] 10 5 1 0 0 (by decide) (by decide)).1
      (by norm_num [sample]),
    by norm_num [sample],
    (height_mapping_extremes [[(1:ℚ), 0], [0, 1]] 10 5 1 0 1 (by decide) (by decide)).2
      (by norm_num [sample])⟩

/-! ### Error handling (C6, C7) -/

/-- C6 (what the code actually does): on a 1×1 grid with no resampling the
pipeline raises no error; it returns a mesh with 2 vertices and an empty
face buffer. -/
theorem one_pixel_no_validation :
    depthmap_to_3d_mesh [[(1:ℚ)]] 10 5 1 MeshRes.unspecified
      = Except.ok (buildMesh [[(1:ℚ)]] 10 5 1) ∧
    (buildMesh [[(1:ℚ)]] 10 5 1).2 = [] ∧
    (buildMesh [[(1:ℚ)]] 10 5 1).1.length = 2 := by
  refine ⟨rfl, by decide, ?_⟩
  rw [vertices_length]
  decide

/-- C7: any `mesh_resolution` that is neither `None`, an int, nor a tuple
makes the pipeline fail with the configuration error before any mesh is
produced. -/
theorem invalid_resolution_rejected (g : Grid) (width depth base_thickness : ℚ) :
    depthmap_to_3d_mesh g width depth base_thickness MeshRes.invalid
      = Except.error MeshError.invalidConfiguration := rfl

/-! ### Resampler shapes (C8) -/

lemma map_length_of_grid {α : Type} (n m : Nat) (f : Nat → Nat → α) :
    (((List.range n).map fun i => (List.range m).map fun j => f i j).map List.length)
      = List.replicate n m := by
  rw [List.map_map]
  have h : (List.length ∘ fun i => (List.range m).map fun j => f i j) = fun i => m := by
    funext i
    simp only [Function.comp_apply, List.length_map, List.length_range]
  rw [h, List.map_const', List.length_range]

lemma resizeBilinear_shape (g : Grid) (wr hr : Nat) :
    (resizeBilinear g wr hr).map List.length = List.replicate hr wr := by
  unfold resizeBilinear
  exact map_length_of_grid hr wr _

/-- C8: no resampling leaves the grid unchanged; an integer `W'` gives a
grid of shape `(round(W' × H/W), W')`; an explicit pair `(W', H')` gives
shape `(H', W')`. Shapes are expressed as the list of row lengths. -/
theorem resample_shape_spec (g : Grid) (n wr hr : Nat) :
    resample g MeshRes.unspecified = Except.ok g ∧
    (resample g (MeshRes.pair wr hr)).map (fun q => q.map List.length)
      = Except.ok (List.replicate hr wr) ∧
    (resample g (MeshRes.int n)).map (fun q => q.map List.length)
      = Except.ok (List.replicate
          ((pyRound ((n : ℚ) * ((gridH g : ℚ) / (gridW g : ℚ)))).toNat) n) := by
  refine ⟨rfl, ?_, ?_⟩
  · show Except.ok ((resizeBilinear g wr hr).map List.length) = _
    rw [resizeBilinear_shape]
  · show Except.ok ((resizeBilinear g n _).map List.length) = _
    rw [resizeBilinear_shape]

end DepthmapMesh
